import Mathlib

/-!
Verification of the group-alias binding engine of the identity store
(source file vault/identity_store_group_aliases.go).

The data model and the operations are shallowly embedded below.  The memdb
index, the storage packer and a few small helpers (memDBGroupByID,
memDBGroupAliasByID, memDBGroupAliasByFactors, memDBGroupByAliasID,
sanitizeGroup, sanitizeGroupAlias, upsertGroup, deleteAliasFromGroup,
updateAliasInGroup, deleteGroupAlias, handleAliasReadCommon, the mount
validator and the request-field decoder) are not part of the given source
slice; they are modelled from the specification, as noted on each of their
definitions.  Everything else is translated directly from the Go source.
-/

/-- An Alias record: binds an external principal name, scoped to one
authentication mount, to exactly one Group (identity.GroupAlias). -/
structure GroupAlias where
  id : String
  name : String
  mountType : String
  mountAccessor : String
  groupID : String
deriving Repr, DecidableEq

/-- A Group record.  The field is called Alias in the Go source; it holds the
group's alias set (the transfer path of the source appends to it and
deleteAliasFromGroup removes from it, so it is embedded as a list). -/
structure Identity.Group where
  id : String
  Alias : List GroupAlias
deriving Repr, DecidableEq

open Identity

/-- Modelled from the spec: the mount validator's result
\x7bmount_accessor, mount_type\x7d. -/
structure MountValidationResp where
  mountAccessor : String
  mountType : String
deriving Repr, DecidableEq

/-- Modelled from the spec: the decoded request fields.  A field that the
caller did not supply is none; d.Get returns the empty string for it while
d.GetOk additionally reports whether it was supplied. -/
structure Fields where
  id : Option String := none
  name : Option String := none
  mount_accessor : Option String := none
  group_id : Option String := none
deriving Repr, DecidableEq

/-- The state of the identity store that the binding engine reads and
writes: the committed Groups (each holding its alias set), the mount
validator's table, and the id-generation counter used by the sanitize
helpers.  The memdb index views below are derived from this state, per the
spec's rule that index and storage never hold independent copies. -/
structure IdentityStore where
  groups : List Group
  mounts : List (String × MountValidationResp)
  nextId : Nat
deriving Repr, DecidableEq

/-- The outcome of one logical operation, mirroring the Go pair
(*logical.Response, error): a fatal error (nil response, non-nil error), a
user error (logical.ErrorResponse), a populated response with data and
warnings, or a nil response with nil error. -/
inductive LResponse where
  | fatal (msg : String)
  | errorResponse (msg : String)
  | success (data : List (String × String)) (warnings : List String)
  | noneResponse
deriving Repr, DecidableEq

/-- Fresh identifiers issued by the sanitize helpers: the n-th identifier is
a non-empty string of length n+1, so identifiers issued at different
counter values are distinct. -/
def freshId (n : Nat) : String :=
  String.mk ('i' :: List.replicate n 'i')

/-- All live aliases, in index order: the concatenation of the alias sets of
the committed groups. -/
def aliasesOf (gs : List Group) : List GroupAlias :=
  gs.flatMap Group.Alias

/-- Modelled from the spec: all live aliases of the store. -/
def groupAliases (s : IdentityStore) : List GroupAlias :=
  aliasesOf s.groups

/-- Modelled from the spec: the unique Group-by-id index lookup. -/
def memDBGroupByID (s : IdentityStore) (groupID : String) : Option Group :=
  s.groups.find? (fun g => g.id == groupID)

/-- Modelled from the spec: the unique Alias-by-id index lookup. -/
def memDBGroupAliasByID (s : IdentityStore) (aliasID : String) : Option GroupAlias :=
  (groupAliases s).find? (fun a => a.id == aliasID)

/-- Modelled from the spec: the unique Alias-by-(mount_accessor, name) index
lookup (the factor match). -/
def memDBGroupAliasByFactors (s : IdentityStore) (mountAccessor name : String) :
    Option GroupAlias :=
  (groupAliases s).find? (fun a => a.mountAccessor == mountAccessor && a.name == name)

/-- Modelled from the spec: the derived Group-by-alias-id lookup (the
authoritative reverse lookup from an alias to its owning group). -/
def memDBGroupByAliasID (s : IdentityStore) (aliasID : String) : Option Group :=
  s.groups.find? (fun g => g.Alias.any (fun a => a.id == aliasID))

/-- Modelled from the spec: the mount validator,
Resolve(mount_accessor) returning \x7bmount_accessor, mount_type\x7d or absent. -/
def validateMountAccessorFunc (s : IdentityStore) (mountAccessor : String) :
    Option MountValidationResp :=
  s.mounts.lookup mountAccessor

/-- Modelled from the spec: remove the alias from the group's alias set. -/
def deleteAliasFromGroup (g : Group) (groupAlias : GroupAlias) : Group :=
  { g with Alias := g.Alias.filter (fun a => a.id != groupAlias.id) }

/-- Modelled from the spec: replace the alias's entry, found by id, inside
the group's alias set (the in-place update of an existing alias). -/
def updateAliasInGroup (g : Group) (groupAlias : GroupAlias) : Group :=
  { g with Alias := g.Alias.map (fun a => if a.id == groupAlias.id then groupAlias else a) }

/-- Modelled from the spec: commit a group's new state into the index and
storage, replacing the record with the same id or inserting it. -/
def putGroup (gs : List Group) (g : Group) : List Group :=
  if gs.any (fun h => h.id == g.id) then
    gs.map (fun h => if h.id == g.id then g else h)
  else gs ++ [g]

/-- Modelled from the spec: persist the target group and, on a transfer,
also the previous group, committing both into the index. -/
def upsertGroup (s : IdentityStore) (g : Group) (previousGroup : Option Group) :
    IdentityStore :=
  match previousGroup with
  | none => { s with groups := putGroup s.groups g }
  | some p => { s with groups := putGroup (putGroup s.groups p) g }

/-- The tail of handleGroupAliasUpdateCommon (source lines 215 to 250):
sanitizeGroup assigns a fresh id to a newly created group, the resolved
name, mount type, mount accessor and owning group id are written onto the
alias (which the target group's alias set holds), sanitizeGroupAlias
assigns a fresh id to a newly created alias, upsertGroup persists the
target group and, on a transfer, the previous group, and the response
carries the alias id and the group id.  The id-assignment internals of
sanitizeGroup and sanitizeGroupAlias are modelled from the spec (generate a
new id for a newly created Group or Alias; leave existing ids untouched). -/
def commitGroupAlias (s : IdentityStore) (groupAlias : GroupAlias)
    (mvr : MountValidationResp) (groupAliasName : String) (target : Group)
    (previousGroup : Option Group) (warnings : List String) :
    LResponse × IdentityStore :=
  let gid := if target.id = "" then freshId s.nextId else target.id
  let n1 := if target.id = "" then s.nextId + 1 else s.nextId
  let aid := if groupAlias.id = "" then freshId n1 else groupAlias.id
  let n2 := if groupAlias.id = "" then n1 + 1 else n1
  let gaFinal : GroupAlias :=
    { id := aid, name := groupAliasName, mountType := mvr.mountType,
      mountAccessor := mvr.mountAccessor, groupID := gid }
  let targetFinal : Group :=
    { id := gid,
      Alias := target.Alias.map (fun a => if a.id == groupAlias.id then gaFinal else a) }
  (LResponse.success [("id", aid), ("group_id", gid)] warnings,
    upsertGroup { s with nextId := n2 } targetFinal previousGroup)

/-- The body of handleGroupAliasUpdateCommon from the factor lookup onwards
(source lines 156 to 250), with the resolved mount validation and the
resolved group_id field in hand.  On the create path with an existing
target group, source line 177 assigns the new alias as the group's whole
alias set (where the transfer path at line 203 appends); it is embedded as
written, the set becoming exactly the new alias. -/
def handleGroupAliasCore (s : IdentityStore) (d : Fields)
    (groupAliasArg : Option GroupAlias) (groupField : Option Group)
    (mvr : MountValidationResp) : LResponse × IdentityStore :=
  match groupAliasArg with
  | none =>
    if (memDBGroupAliasByFactors s mvr.mountAccessor (d.name.getD "")).isSome then
      (LResponse.errorResponse
        "combination of mount and group alias name is already in use", s)
    else
      match groupField with
      | none =>
        commitGroupAlias s ⟨"", "", "", "", ""⟩ mvr (d.name.getD "")
          ⟨"", [⟨"", "", "", "", ""⟩]⟩ none []
      | some g =>
        commitGroupAlias s ⟨"", "", "", "", ""⟩ mvr (d.name.getD "")
          { g with Alias := [⟨"", "", "", "", ""⟩] } none []
  | some groupAlias =>
    if (match memDBGroupAliasByFactors s mvr.mountAccessor (d.name.getD "") with
        | some f => f.id != groupAlias.id
        | none => false) then
      (LResponse.errorResponse
        "combination of mount and group alias name is already in use", s)
    else
      match memDBGroupByAliasID s groupAlias.id with
      | none => (LResponse.fatal "group alias is not associated with a group", s)
      | some existingGroup =>
        match groupField with
        | some g =>
          if g.id ≠ existingGroup.id then
            commitGroupAlias s groupAlias mvr (d.name.getD "")
              { g with Alias := g.Alias ++ [groupAlias] }
              (some (deleteAliasFromGroup existingGroup groupAlias))
              ["group alias is being transferred from group \"" ++
                existingGroup.id ++ "\" to \"" ++ g.id ++ "\""]
          else
            commitGroupAlias s groupAlias mvr (d.name.getD "")
              (updateAliasInGroup existingGroup groupAlias) none []
        | none =>
          commitGroupAlias s groupAlias mvr (d.name.getD "")
            (updateAliasInGroup existingGroup groupAlias) none []

/-- The name, mount accessor and mount validator checks of
handleGroupAliasUpdateCommon (source lines 140 to 154), followed by the
core. -/
def handleGroupAliasStage2 (s : IdentityStore) (d : Fields)
    (groupAliasArg : Option GroupAlias) (groupField : Option Group) :
    LResponse × IdentityStore :=
  if d.name.getD "" = "" then (LResponse.errorResponse "missing alias name", s)
  else if d.mount_accessor.getD "" = "" then
    (LResponse.errorResponse "missing mount_accessor", s)
  else
    match validateMountAccessorFunc s (d.mount_accessor.getD "") with
    | none =>
      (LResponse.errorResponse
        ("invalid mount accessor \"" ++ d.mount_accessor.getD "" ++ "\""), s)
    | some mvr => handleGroupAliasCore s d groupAliasArg groupField mvr

/-- Source lines 115 to 251 (handleGroupAliasUpdateCommon).  The validation
order follows the source: the group_id field is resolved first (lines 128
to 138), then the name (140 to 144), then the mount accessor (146 to 154),
then the factor lookup and the create or update work in the core. -/
def handleGroupAliasUpdateCommon (s : IdentityStore) (d : Fields)
    (groupAliasArg : Option GroupAlias) : LResponse × IdentityStore :=
  match (if d.group_id.getD "" = "" then some (none : Option Group)
      else (memDBGroupByID s (d.group_id.getD "")).map some) with
  | none => (LResponse.errorResponse "invalid group ID", s)
  | some groupField => handleGroupAliasStage2 s d groupAliasArg groupField

/-- Source lines 95 to 113 (pathGroupAliasIDUpdate).  Source line 104 looks
the alias up with the identifier groupID, which has no definition in the
function's scope (Go refuses to compile it; the surrounding code and the
spec intend the requested alias id, held in groupAliasID).  The lookup is
embedded with the requested alias id; claim C4 records the divergence. -/
def pathGroupAliasIDUpdate (s : IdentityStore) (d : Fields) :
    LResponse × IdentityStore :=
  if d.id.getD "" = "" then (LResponse.errorResponse "empty group alias ID", s)
  else
    match memDBGroupAliasByID s (d.id.getD "") with
    | none => (LResponse.errorResponse "invalid group alias ID", s)
    | some groupAlias => handleGroupAliasUpdateCommon s d (some groupAlias)

/-- Source lines 83 to 93 (pathGroupAliasRegister): a request whose id field
was supplied is dispatched to the update handler, any other request takes
the create path. -/
def pathGroupAliasRegister (s : IdentityStore) (d : Fields) :
    LResponse × IdentityStore :=
  if d.id.isSome then pathGroupAliasIDUpdate s d
  else handleGroupAliasUpdateCommon s d none

/-- Modelled from the spec: the read path's flattened view of an alias's
public fields; a nil alias yields the nil (not-found) response. -/
def handleAliasReadCommon (groupAliasArg : Option GroupAlias) : LResponse :=
  match groupAliasArg with
  | none => LResponse.noneResponse
  | some a =>
    LResponse.success
      [("id", a.id), ("name", a.name), ("mount_accessor", a.mountAccessor),
        ("mount_type", a.mountType), ("group_id", a.groupID)] []

/-- Source lines 255 to 267 (pathGroupAliasIDRead). -/
def pathGroupAliasIDRead (s : IdentityStore) (d : Fields) :
    LResponse × IdentityStore :=
  if d.id.getD "" = "" then (LResponse.errorResponse "empty group alias id", s)
  else (handleAliasReadCommon (memDBGroupAliasByID s (d.id.getD "")), s)

/-- Modelled from the spec: delete an alias by id; remove it from its owning
group's alias set and commit the group's new state; a non-existent id is a
no-op. -/
def deleteGroupAlias (s : IdentityStore) (aliasID : String) : IdentityStore :=
  match memDBGroupAliasByID s aliasID with
  | none => s
  | some ga =>
    match memDBGroupByAliasID s aliasID with
    | none => s
    | some g => { s with groups := putGroup s.groups (deleteAliasFromGroup g ga) }

/-- Source lines 270 to 277 (pathAliasIDDelete). -/
def pathAliasIDDelete (s : IdentityStore) (d : Fields) :
    LResponse × IdentityStore :=
  if d.id.getD "" = "" then (LResponse.errorResponse "missing group alias ID", s)
  else (LResponse.noneResponse, deleteGroupAlias s (d.id.getD ""))

/-- The store a fresh process starts from: no groups, a given mount table,
the id counter at zero. -/
def initStore (mounts : List (String × MountValidationResp)) : IdentityStore :=
  ⟨[], mounts, 0⟩

/-- A sequence of register operations applied from the initial store. -/
def runRegisters (mounts : List (String × MountValidationResp))
    (ops : List Fields) : IdentityStore :=
  ops.foldl (fun s d => (pathGroupAliasRegister s d).2) (initStore mounts)

/-- The fresh identifier issued at counter value n has length n + 1. -/
lemma freshId_length (n : Nat) : (freshId n).length = n + 1 := by
  simp [freshId, String.length]

/-- Fresh identifiers are never the empty-string sentinel. -/
lemma freshId_ne_empty (n : Nat) : freshId n ≠ "" := by
  intro h
  have := congrArg String.length h
  simp [freshId_length] at this

/-- Two strings of different lengths differ. -/
lemma ne_of_length_ne {s t : String} (h : s.length ≠ t.length) : s ≠ t := by
  intro he; exact h (by rw [he])

/-- The ids of the committed groups, in index order. -/
def groupIds (gs : List Group) : List String := gs.map Group.id

/-- The ids of the live aliases, in index order. -/
def aliasIds (gs : List Group) : List String := (aliasesOf gs).map GroupAlias.id

/-- The (mount_accessor, name) factor pairs of the live aliases. -/
def aliasFactors (gs : List Group) : List (String × String) :=
  (aliasesOf gs).map (fun a => (a.mountAccessor, a.name))

/-- The store's internal consistency invariant: group ids are pairwise
distinct, alias ids are pairwise distinct, the (mount_accessor, name)
factor pairs of the live aliases are pairwise distinct, and every id in use
is non-empty and was issued below the current counter (its length is at
most nextId). -/
structure StoreInv (s : IdentityStore) : Prop where
  gNodup : (groupIds s.groups).Nodup
  aNodup : (aliasIds s.groups).Nodup
  fNodup : (aliasFactors s.groups).Nodup
  idLen : ∀ i ∈ groupIds s.groups ++ aliasIds s.groups, 1 ≤ i.length ∧ i.length ≤ s.nextId

/-- The initial store satisfies the invariant. -/
lemma StoreInv_initStore (mounts : List (String × MountValidationResp)) :
    StoreInv (initStore mounts) := by
  refine ⟨?_, ?_, ?_, ?_⟩ <;> simp [initStore, groupIds, aliasIds, aliasFactors, aliasesOf]

/-- Ids in use are shorter than freshly issued ones, hence distinct from
them. -/
lemma StoreInv.fresh_not_used {s : IdentityStore} (hs : StoreInv s)
    {i : String} (hi : i ∈ groupIds s.groups ++ aliasIds s.groups)
    {k : Nat} (hk : s.nextId ≤ k) : i ≠ freshId k := by
  have h := hs.idLen i hi
  exact ne_of_length_ne (by rw [freshId_length]; omega)

/-- Ids in use are non-empty. -/
lemma StoreInv.ne_empty {s : IdentityStore} (hs : StoreInv s)
    {i : String} (hi : i ∈ groupIds s.groups ++ aliasIds s.groups) : i ≠ "" := by
  have h := hs.idLen i hi
  intro he; subst he; simp at h

lemma aliasesOf_append (l₁ l₂ : List Group) :
    aliasesOf (l₁ ++ l₂) = aliasesOf l₁ ++ aliasesOf l₂ := by
  simp [aliasesOf]

lemma aliasesOf_cons (g : Group) (l : List Group) :
    aliasesOf (g :: l) = g.Alias ++ aliasesOf l := by
  simp [aliasesOf]

/-- A map replacing the entries whose key equals k is the identity on a list
none of whose entries has key k. -/
lemma map_if_eq_self {α β : Type} [BEq β] [LawfulBEq β] {l : List α} {key : α → β}
    {k : β} {T : α} (h : ∀ x ∈ l, key x ≠ k) :
    l.map (fun x => if key x == k then T else x) = l := by
  induction l with
  | nil => rfl
  | cons x xs ih =>
    have hx : (key x == k) = false := by
      simpa using h x (by simp)
    simp [hx, ih (fun y hy => h y (by simp [hy]))]

/-- putGroup on a store holding no record with the group's id appends it. -/
lemma putGroup_of_forall_ne {gs : List Group} {g : Group}
    (h : ∀ x ∈ gs, x.id ≠ g.id) : putGroup gs g = gs ++ [g] := by
  have : gs.any (fun x => x.id == g.id) = false := by
    simp only [List.any_eq_false]
    intro x hx; simpa using h x hx
  simp [putGroup, this]

/-- putGroup on a store holding a record with the group's id replaces the
matching records. -/
lemma putGroup_of_any {gs : List Group} {g : Group}
    (h : gs.any (fun x => x.id == g.id) = true) :
    putGroup gs g = gs.map (fun x => if x.id == g.id then g else x) := by
  simp [putGroup, h]

/-- After putGroup, looking the group's id up yields the new record. -/
lemma find?_putGroup_self (gs : List Group) (g : Group) :
    (putGroup gs g).find? (fun x => x.id == g.id) = some g := by
  by_cases h : gs.any (fun x => x.id == g.id) = true
  · rw [putGroup_of_any h]
    induction gs with
    | nil => simp at h
    | cons x xs ih =>
      by_cases hx : (x.id == g.id) = true
      · rw [List.map_cons, if_pos hx]
        exact List.find?_cons_of_pos _ (by simp)
      · have hxs : xs.any (fun x => x.id == g.id) = true := by
          simp only [List.any_cons, hx, Bool.false_or] at h; exact h
        rw [List.map_cons, if_neg (by simp [hx]),
          List.find?_cons_of_neg _ (by simp [hx])]
        exact ih hxs
  · have h' : ∀ x ∈ gs, x.id ≠ g.id := by
      simp only [List.any_eq_true, not_exists] at h
      intro x hx he; exact h x ⟨hx, by simp [he]⟩
    rw [putGroup_of_forall_ne h', List.find?_append]
    have : gs.find? (fun x => x.id == g.id) = none := by
      rw [List.find?_eq_none]; intro x hx; simpa using h' x hx
    simp [this]

/-- putGroup leaves lookups of other ids unchanged. -/
lemma find?_putGroup_other {gs : List Group} {g : Group} {gid : String}
    (h : gid ≠ g.id) :
    (putGroup gs g).find? (fun x => x.id == gid) = gs.find? (fun x => x.id == gid) := by
  have hg' : (g.id == gid) = false := by
    simp only [beq_eq_false_iff_ne, ne_eq]
    exact fun he => h (Eq.symm he)
  by_cases hany : gs.any (fun x => x.id == g.id) = true
  · rw [putGroup_of_any hany]
    induction gs with
    | nil => rfl
    | cons x xs ih =>
      by_cases hx : (x.id == g.id) = true
      · have hx' : (x.id == gid) = false := by
          have hxe : x.id = g.id := by simpa using hx
          rw [hxe]; exact hg'
        rw [List.map_cons, if_pos hx, List.find?_cons_of_neg _ (by simp [hg']),
          List.find?_cons_of_neg _ (by simp [hx'])]
        by_cases hxs : xs.any (fun x => x.id == g.id) = true
        · exact ih hxs
        · have h' : ∀ y ∈ xs, y.id ≠ g.id := by
            simp only [List.any_eq_true, not_exists] at hxs
            intro y hy he; exact hxs y ⟨hy, by simp [he]⟩
          rw [map_if_eq_self h']
      · rw [List.map_cons, if_neg (by simp [hx])]
        by_cases hx2 : (x.id == gid) = true
        · simp only [List.find?_cons, hx2]
        · simp only [List.find?_cons, hx2]
          have hxs : xs.any (fun x => x.id == g.id) = true := by
            simp only [List.any_cons, hx, Bool.false_or] at hany; exact hany
          exact ih hxs
  · have h' : ∀ x ∈ gs, x.id ≠ g.id := by
      simp only [List.any_eq_true, not_exists] at hany
      intro x hx he; exact hany x ⟨hx, by simp [he]⟩
    rw [putGroup_of_forall_ne h', List.find?_append]
    have hg2 : List.find? (fun x => x.id == gid) [g] = none := by
      simp only [List.find?_cons, hg', List.find?_nil]
    rw [hg2]
    cases gs.find? (fun x => x.id == gid) <;> simp

/-- A successful Group-by-id lookup yields a member with that id. -/
lemma memDBGroupByID_some {s : IdentityStore} {gid : String} {g : Group}
    (h : memDBGroupByID s gid = some g) : g ∈ s.groups ∧ g.id = gid := by
  refine ⟨List.mem_of_find?_eq_some h, ?_⟩
  simpa using List.find?_some h

/-- A successful Alias-by-id lookup yields a live alias with that id. -/
lemma memDBGroupAliasByID_some {s : IdentityStore} {aid : String} {a : GroupAlias}
    (h : memDBGroupAliasByID s aid = some a) : a ∈ groupAliases s ∧ a.id = aid := by
  refine ⟨List.mem_of_find?_eq_some h, ?_⟩
  simpa using List.find?_some h

/-- An empty factor-match lookup means no live alias carries the pair. -/
lemma memDBGroupAliasByFactors_none {s : IdentityStore} {ma nm : String}
    (h : memDBGroupAliasByFactors s ma nm = none) :
    ∀ a ∈ groupAliases s, ¬(a.mountAccessor = ma ∧ a.name = nm) := by
  intro a haMem hc
  have := List.find?_eq_none.mp h a haMem
  simp [hc.1, hc.2] at this

/-- A successful factor-match lookup yields a live alias carrying the pair. -/
lemma memDBGroupAliasByFactors_some {s : IdentityStore} {ma nm : String} {a : GroupAlias}
    (h : memDBGroupAliasByFactors s ma nm = some a) :
    a ∈ groupAliases s ∧ a.mountAccessor = ma ∧ a.name = nm := by
  refine ⟨List.mem_of_find?_eq_some h, ?_⟩
  have := List.find?_some h
  simp only [Bool.and_eq_true, beq_iff_eq] at this
  exact this

/-- A successful reverse lookup yields a member group holding an alias with
the requested id. -/
lemma memDBGroupByAliasID_some {s : IdentityStore} {aid : String} {g : Group}
    (h : memDBGroupByAliasID s aid = some g) :
    g ∈ s.groups ∧ ∃ a ∈ g.Alias, a.id = aid := by
  refine ⟨List.mem_of_find?_eq_some h, ?_⟩
  have := List.find?_some h
  simp only [List.any_eq_true, beq_iff_eq] at this
  exact this

/-- Membership of a live alias makes the reverse lookup succeed. -/
lemma memDBGroupByAliasID_isSome {s : IdentityStore} {a : GroupAlias}
    (h : a ∈ groupAliases s) : (memDBGroupByAliasID s a.id).isSome := by
  rw [memDBGroupByAliasID, List.find?_isSome]
  simp only [groupAliases, aliasesOf, List.mem_flatMap] at h
  obtain ⟨g, hg, hag⟩ := h
  exact ⟨g, hg, by simp only [List.any_eq_true]; exact ⟨a, hag, by simp⟩⟩

/-- An element's membership in two distinct members of a flat-mapped
duplicate-free list is impossible. -/
lemma flatMap_nodup_disjoint {α β : Type} {f : α → List β} {l : List α}
    (h : (l.flatMap f).Nodup) {a b : α} (ha : a ∈ l) (hb : b ∈ l) (hab : a ≠ b)
    {x : β} (hxa : x ∈ f a) (hxb : x ∈ f b) : False := by
  obtain ⟨u, v, huv⟩ := List.append_of_mem ha
  subst huv
  have hb' : b ∈ u ∨ b ∈ v := by
    rcases List.mem_append.mp hb with h1 | h1
    · exact Or.inl h1
    · rcases List.mem_cons.mp h1 with h2 | h2
      · exact absurd h2.symm hab
      · exact Or.inr h2
  rw [List.flatMap_append, List.flatMap_cons] at h
  rw [List.nodup_append] at h
  obtain ⟨hu, hrest, hdisj⟩ := h
  rcases hb' with hbu | hbv
  · exact hdisj (List.mem_flatMap.mpr ⟨b, hbu, hxb⟩)
      (List.mem_append.mpr (Or.inl hxa))
  · rw [List.nodup_append] at hrest
    exact hrest.2.2 hxa (List.mem_flatMap.mpr ⟨b, hbv, hxb⟩)

/-- Two distinct members of a list occur at two distinct positions, in one
of the two orders. -/
lemma mem_mem_split {α : Type} {a b : α} {l : List α} (ha : a ∈ l) (hb : b ∈ l)
    (hne : a ≠ b) :
    (∃ u v w, l = u ++ a :: v ++ b :: w) ∨ (∃ u v w, l = u ++ b :: v ++ a :: w) := by
  induction l with
  | nil => simp at ha
  | cons c t ih =>
    rcases List.mem_cons.mp ha with hca | hta
    · subst hca
      have hbt : b ∈ t := by
        rcases List.mem_cons.mp hb with h1 | h1
        · exact absurd h1.symm (by simpa using hne)
        · exact h1
      obtain ⟨v, w, hvw⟩ := List.append_of_mem hbt
      exact Or.inl ⟨[], v, w, by rw [hvw]; rfl⟩
    · rcases List.mem_cons.mp hb with hcb | htb
      · subst hcb
        obtain ⟨v, w, hvw⟩ := List.append_of_mem hta
        exact Or.inr ⟨[], v, w, by rw [hvw]; rfl⟩
      · rcases ih hta htb with ⟨u, v, w, huvw⟩ | ⟨u, v, w, huvw⟩
        · exact Or.inl ⟨c :: u, v, w, by rw [huvw]; rfl⟩
        · exact Or.inr ⟨c :: u, v, w, by rw [huvw]; rfl⟩

/-- Members of a duplicate-free-keyed list with equal keys are equal. -/
lemma eq_of_mem_of_nodup_key {α β : Type} {key : α → β} {l : List α}
    (h : (l.map key).Nodup) {x y : α} (hx : x ∈ l) (hy : y ∈ l)
    (hk : key x = key y) : x = y :=
  List.inj_on_of_nodup_map h hx hy hk

lemma mem_groupIds_of_mem {gs : List Group} {g : Group} (h : g ∈ gs) :
    g.id ∈ groupIds gs := List.mem_map_of_mem _ h

lemma mem_aliasIds_of_mem {gs : List Group} {a : GroupAlias} (h : a ∈ aliasesOf gs) :
    a.id ∈ aliasIds gs := List.mem_map_of_mem _ h

/-- Replacing a middle block by a single element absent from the rest keeps
a list duplicate-free. -/
lemma nodup_replace_middle {α : Type} {u m v : List α} {x : α}
    (h : (u ++ (m ++ v)).Nodup) (hxu : x ∉ u) (hxv : x ∉ v) :
    (u ++ x :: v).Nodup := by
  have h2 : (u ++ v).Nodup :=
    List.Sublist.nodup ((List.sublist_append_right m v).append_left u) h
  rw [List.nodup_middle, List.nodup_cons]
  exact ⟨by simp [hxu, hxv], h2⟩

/-- find? over a concatenation whose prefix has no match returns the marked
element. -/
lemma find?_eq_some_at {α : Type} {p : α → Bool} {u v : List α} {x : α}
    (hu : ∀ y ∈ u, p y = false) (hx : p x = true) :
    (u ++ x :: v).find? p = some x := by
  rw [List.find?_append]
  have hnone : u.find? p = none := List.find?_eq_none.mpr (by intro y hy; simp [hu y hy])
  simp [hnone, List.find?_cons, hx]

/-- A duplicate-free list stays duplicate-free when an element is removed
from one position and an element absent from the remainder is inserted at
another, both changes described by permutations onto a common remainder. -/
lemma nodup_of_perm_subst {α : Type} {l l' c : List α} {x y : α}
    (hl : l.Perm (x :: c)) (hl' : l'.Perm (y :: c)) (h : l.Nodup)
    (hy : y ∉ c) : l'.Nodup := by
  have hxc : (x :: c).Nodup := hl.nodup h
  have hc : c.Nodup := (List.nodup_cons.mp hxc).2
  exact hl'.symm.nodup (List.nodup_cons.mpr ⟨hy, hc⟩)

/-- The new-group create path: with no factor match, committing the fresh
alias into a fresh group appends a one-alias group, issues two fresh ids,
preserves the invariant, and makes the new alias retrievable by its id. -/
lemma spec_create_new (s : IdentityStore) (mvr : MountValidationResp)
    (nm : String) (w : List String) (hs : StoreInv s)
    (hfac : memDBGroupAliasByFactors s mvr.mountAccessor nm = none) :
    ∃ s', commitGroupAlias s ⟨"", "", "", "", ""⟩ mvr nm
        ⟨"", [⟨"", "", "", "", ""⟩]⟩ none w
      = (LResponse.success
          [("id", freshId (s.nextId + 1)), ("group_id", freshId s.nextId)] w, s')
    ∧ s' = ⟨s.groups ++
        [⟨freshId s.nextId,
          [⟨freshId (s.nextId + 1), nm, mvr.mountType, mvr.mountAccessor,
            freshId s.nextId⟩]⟩], s.mounts, s.nextId + 2⟩
    ∧ StoreInv s'
    ∧ memDBGroupAliasByID s' (freshId (s.nextId + 1))
        = some ⟨freshId (s.nextId + 1), nm, mvr.mountType, mvr.mountAccessor,
            freshId s.nextId⟩ := by
  have hfreshG : ∀ x ∈ s.groups, x.id ≠ freshId s.nextId := by
    intro x hx
    exact hs.fresh_not_used (List.mem_append.mpr (Or.inl (mem_groupIds_of_mem hx)))
      (Nat.le_refl _)
  have hstate : commitGroupAlias s ⟨"", "", "", "", ""⟩ mvr nm
      ⟨"", [⟨"", "", "", "", ""⟩]⟩ none w
      = (LResponse.success
          [("id", freshId (s.nextId + 1)), ("group_id", freshId s.nextId)] w,
        ⟨s.groups ++
          [⟨freshId s.nextId,
            [⟨freshId (s.nextId + 1), nm, mvr.mountType, mvr.mountAccessor,
              freshId s.nextId⟩]⟩], s.mounts, s.nextId + 2⟩) := by
    simp only [commitGroupAlias, upsertGroup]
    rw [putGroup_of_forall_ne (by intro x hx; simpa using hfreshG x hx)]
    simp
  refine ⟨_, hstate ▸ rfl, rfl, ?_, ?_⟩
  · constructor
    · show (groupIds _).Nodup
      rw [groupIds, List.map_append, List.nodup_append]
      refine ⟨hs.gNodup, by simp, ?_⟩
      intro i hi hi2
      simp only [List.map_cons, List.map_nil, List.mem_singleton] at hi2
      subst hi2
      exact hs.fresh_not_used (List.mem_append.mpr (Or.inl hi)) (Nat.le_refl _) rfl
    · show (aliasIds _).Nodup
      rw [aliasIds, aliasesOf_append, List.map_append, List.nodup_append]
      refine ⟨hs.aNodup, by simp [aliasesOf], ?_⟩
      intro i hi hi2
      simp only [aliasesOf, List.flatMap_cons, List.flatMap_nil] at hi2
      simp at hi2
      subst hi2
      exact hs.fresh_not_used (List.mem_append.mpr (Or.inr hi)) (by omega) rfl
    · show (aliasFactors _).Nodup
      rw [aliasFactors, aliasesOf_append, List.map_append, List.nodup_append]
      refine ⟨hs.fNodup, by simp [aliasesOf], ?_⟩
      intro pr hpr hpr2
      simp only [aliasesOf, List.flatMap_cons, List.flatMap_nil] at hpr2
      simp at hpr2
      simp only [aliasFactors, List.mem_map] at hpr
      obtain ⟨a, ha, hpa⟩ := hpr
      have h3 : (a.mountAccessor, a.name) = (mvr.mountAccessor, nm) := by
        rw [hpa, hpr2]
      exact memDBGroupAliasByFactors_none hfac a ha
        ⟨congrArg Prod.fst h3, congrArg Prod.snd h3⟩
    · intro i hi
      show 1 ≤ i.length ∧ i.length ≤ s.nextId + 2
      simp only [groupIds, aliasIds, aliasesOf, List.map_append, List.flatMap_append,
        List.flatMap_cons, List.flatMap_nil, List.map_cons, List.map_nil,
        List.mem_append, List.mem_cons, List.append_nil] at hi
      rcases hi with (hi | hi | hi) | (hi | hi | hi)
      · have h4 := hs.idLen i (List.mem_append.mpr (Or.inl hi))
        exact ⟨h4.1, by omega⟩
      · subst hi; simp only [freshId_length]; omega
      · exact absurd hi (List.not_mem_nil i)
      · have h4 := hs.idLen i (List.mem_append.mpr (Or.inr hi))
        exact ⟨h4.1, by omega⟩
      · subst hi; simp only [freshId_length]; omega
      · exact absurd hi (List.not_mem_nil i)
  · rw [memDBGroupAliasByID, groupAliases]
    show (aliasesOf _).find? _ = _
    rw [aliasesOf_append]
    have he : aliasesOf [⟨freshId s.nextId,
        [⟨freshId (s.nextId + 1), nm, mvr.mountType, mvr.mountAccessor,
          freshId s.nextId⟩]⟩]
        = [⟨freshId (s.nextId + 1), nm, mvr.mountType, mvr.mountAccessor,
          freshId s.nextId⟩] := by
      simp [aliasesOf]
    rw [he]
    exact find?_eq_some_at
      (by
        intro y hy
        have hne : y.id ≠ freshId (s.nextId + 1) :=
          hs.fresh_not_used (List.mem_append.mpr (Or.inr (mem_aliasIds_of_mem hy)))
            (by omega)
        simp [hne])
      (by simp)

/-- A member of a list with duplicate-free ids sits at a unique position,
and no other entry shares its id. -/
lemma decomp_of_mem_nodup {gs : List Group} {g : Group}
    (hmem : g ∈ gs) (hnd : (groupIds gs).Nodup) :
    ∃ u v, gs = u ++ g :: v ∧ (∀ x ∈ u, x.id ≠ g.id) ∧ (∀ x ∈ v, x.id ≠ g.id) := by
  obtain ⟨u, v, huv⟩ := List.append_of_mem hmem
  subst huv
  have h2 : g.id ∉ u.map Group.id ++ v.map Group.id := by
    have h3 := hnd
    simp only [groupIds, List.map_append, List.map_cons] at h3
    rw [List.nodup_middle] at h3
    exact (List.nodup_cons.mp h3).1
  rw [List.mem_append] at h2
  push_neg at h2
  refine ⟨u, v, rfl, ?_, ?_⟩
  · intro x hx he
    exact h2.1 (List.mem_map.mpr ⟨x, hx, he⟩)
  · intro x hx he
    exact h2.2 (List.mem_map.mpr ⟨x, hx, he⟩)

/-- putGroup on a decomposed store replaces exactly the marked record. -/
lemma putGroup_decomp {u v : List Group} {g T : Group} (hT : g.id = T.id)
    (hu : ∀ x ∈ u, x.id ≠ T.id) (hv : ∀ x ∈ v, x.id ≠ T.id) :
    putGroup (u ++ g :: v) T = u ++ T :: v := by
  have hany : (u ++ g :: v).any (fun x => x.id == T.id) = true := by
    rw [List.any_eq_true]
    exact ⟨g, by simp, by simp [hT]⟩
  rw [putGroup_of_any hany, List.map_append, List.map_cons, if_pos (by simp [hT]),
    map_if_eq_self hu, map_if_eq_self hv]

/-- The create path into an existing target group: with no factor match,
the commit issues one fresh alias id, makes the target group's alias set
exactly the new alias, preserves the invariant, and makes the new alias
retrievable by its id. -/
lemma spec_create_existing (s : IdentityStore) (mvr : MountValidationResp)
    (nm : String) (w : List String) (g : Group)
    (hs : StoreInv s) (hmem : g ∈ s.groups)
    (hfac : memDBGroupAliasByFactors s mvr.mountAccessor nm = none) :
    ∃ s', commitGroupAlias s ⟨"", "", "", "", ""⟩ mvr nm
        { g with Alias := [⟨"", "", "", "", ""⟩] } none w
      = (LResponse.success [("id", freshId s.nextId), ("group_id", g.id)] w, s')
    ∧ s' = ⟨putGroup s.groups
        ⟨g.id, [⟨freshId s.nextId, nm, mvr.mountType, mvr.mountAccessor, g.id⟩]⟩,
        s.mounts, s.nextId + 1⟩
    ∧ StoreInv s'
    ∧ memDBGroupAliasByID s' (freshId s.nextId)
        = some ⟨freshId s.nextId, nm, mvr.mountType, mvr.mountAccessor, g.id⟩
    ∧ memDBGroupByID s' g.id
        = some ⟨g.id, [⟨freshId s.nextId, nm, mvr.mountType, mvr.mountAccessor, g.id⟩]⟩ := by
  have hgid : g.id ≠ "" :=
    hs.ne_empty (List.mem_append.mpr (Or.inl (mem_groupIds_of_mem hmem)))
  have hstate : commitGroupAlias s ⟨"", "", "", "", ""⟩ mvr nm
      { g with Alias := [⟨"", "", "", "", ""⟩] } none w
      = (LResponse.success [("id", freshId s.nextId), ("group_id", g.id)] w,
        ⟨putGroup s.groups
          ⟨g.id, [⟨freshId s.nextId, nm, mvr.mountType, mvr.mountAccessor, g.id⟩]⟩,
          s.mounts, s.nextId + 1⟩) := by
    simp only [commitGroupAlias, upsertGroup]
    simp [hgid]
  obtain ⟨u, v, hsplit, hu, hv⟩ := decomp_of_mem_nodup hmem hs.gNodup
  have hput : putGroup s.groups
      ⟨g.id, [⟨freshId s.nextId, nm, mvr.mountType, mvr.mountAccessor, g.id⟩]⟩
      = u ++ ⟨g.id, [⟨freshId s.nextId, nm, mvr.mountType, mvr.mountAccessor, g.id⟩]⟩ :: v := by
    rw [hsplit]
    exact putGroup_decomp rfl hu hv
  have hAold : aliasesOf s.groups = aliasesOf u ++ (g.Alias ++ aliasesOf v) := by
    rw [hsplit, aliasesOf_append, aliasesOf_cons]
  have hAnew : aliasesOf (u ++
      ⟨g.id, [⟨freshId s.nextId, nm, mvr.mountType, mvr.mountAccessor, g.id⟩]⟩ :: v)
      = aliasesOf u ++
        ⟨freshId s.nextId, nm, mvr.mountType, mvr.mountAccessor, g.id⟩ :: aliasesOf v := by
    rw [aliasesOf_append, aliasesOf_cons]
    rfl
  have hfreshA : ∀ a ∈ aliasesOf s.groups, a.id ≠ freshId s.nextId := by
    intro a ha
    exact hs.fresh_not_used (List.mem_append.mpr (Or.inr (mem_aliasIds_of_mem ha)))
      (Nat.le_refl _)
  have hmemu : ∀ a ∈ aliasesOf u, a ∈ aliasesOf s.groups := by
    intro a ha; rw [hAold]; exact List.mem_append.mpr (Or.inl ha)
  have hmemv : ∀ a ∈ aliasesOf v, a ∈ aliasesOf s.groups := by
    intro a ha
    rw [hAold]
    exact List.mem_append.mpr (Or.inr (List.mem_append.mpr (Or.inr ha)))
  refine ⟨_, hstate ▸ rfl, rfl, ?_, ?_, ?_⟩
  · constructor
    · show (groupIds (putGroup _ _)).Nodup
      rw [hput]
      have : groupIds (u ++
          ⟨g.id, [⟨freshId s.nextId, nm, mvr.mountType, mvr.mountAccessor, g.id⟩]⟩ :: v)
          = groupIds (u ++ g :: v) := by
        simp [groupIds]
      rw [this, ← hsplit]
      exact hs.gNodup
    · show (aliasIds (putGroup _ _)).Nodup
      rw [aliasIds, hput, hAnew, List.map_append, List.map_cons]
      refine nodup_replace_middle (m := g.Alias.map GroupAlias.id) ?_ ?_ ?_
      · have h3 := hs.aNodup
        rw [aliasIds, hAold] at h3
        simpa [List.map_append] using h3
      · intro hmm
        rw [List.mem_map] at hmm
        obtain ⟨a, ha, hae⟩ := hmm
        exact hfreshA a (hmemu a ha) hae
      · intro hmm
        rw [List.mem_map] at hmm
        obtain ⟨a, ha, hae⟩ := hmm
        exact hfreshA a (hmemv a ha) hae
    · show (aliasFactors (putGroup _ _)).Nodup
      rw [aliasFactors, hput, hAnew, List.map_append, List.map_cons]
      refine nodup_replace_middle
        (m := g.Alias.map (fun a => (a.mountAccessor, a.name))) ?_ ?_ ?_
      · have h3 := hs.fNodup
        rw [aliasFactors, hAold] at h3
        simpa [List.map_append] using h3
      · intro hmm
        rw [List.mem_map] at hmm
        obtain ⟨a, ha, hae⟩ := hmm
        exact memDBGroupAliasByFactors_none hfac a (hmemu a ha)
          ⟨congrArg Prod.fst hae, congrArg Prod.snd hae⟩
      · intro hmm
        rw [List.mem_map] at hmm
        obtain ⟨a, ha, hae⟩ := hmm
        exact memDBGroupAliasByFactors_none hfac a (hmemv a ha)
          ⟨congrArg Prod.fst hae, congrArg Prod.snd hae⟩
    · intro i hi
      show 1 ≤ i.length ∧ i.length ≤ s.nextId + 1
      rw [List.mem_append] at hi
      rcases hi with hi | hi
      · have hgi : groupIds (putGroup s.groups
            ⟨g.id, [⟨freshId s.nextId, nm, mvr.mountType, mvr.mountAccessor, g.id⟩]⟩)
            = groupIds s.groups := by
          rw [hput, hsplit]
          simp [groupIds]
        rw [hgi] at hi
        have h4 := hs.idLen i (List.mem_append.mpr (Or.inl hi))
        exact ⟨h4.1, by omega⟩
      · rw [aliasIds, hput, hAnew, List.map_append, List.map_cons,
          List.mem_append, List.mem_cons] at hi
        rcases hi with hi | hi | hi
        · rw [List.mem_map] at hi
          obtain ⟨a, ha, hae⟩ := hi
          have h4 := hs.idLen i
            (List.mem_append.mpr (Or.inr (hae ▸ mem_aliasIds_of_mem (hmemu a ha))))
          exact ⟨h4.1, by omega⟩
        · subst hi; simp only [freshId_length]; omega
        · rw [List.mem_map] at hi
          obtain ⟨a, ha, hae⟩ := hi
          have h4 := hs.idLen i
            (List.mem_append.mpr (Or.inr (hae ▸ mem_aliasIds_of_mem (hmemv a ha))))
          exact ⟨h4.1, by omega⟩
  · show (groupAliases _).find? _ = _
    rw [groupAliases]
    show (aliasesOf (putGroup _ _)).find? _ = _
    rw [hput, hAnew]
    exact find?_eq_some_at
      (by
        intro y hy
        have hne : y.id ≠ freshId s.nextId := hfreshA y (hmemu y hy)
        simp [hne])
      (by simp)
  · show (putGroup _ _).find? _ = _
    exact find?_putGroup_self s.groups
      ⟨g.id, [⟨freshId s.nextId, nm, mvr.mountType, mvr.mountAccessor, g.id⟩]⟩

/-- Keyed version of the unique-position decomposition. -/
lemma decomp_of_mem_nodup_key {α β : Type} {key : α → β} {l : List α} {a : α}
    (hmem : a ∈ l) (hnd : (l.map key).Nodup) :
    ∃ u v, l = u ++ a :: v ∧ (∀ x ∈ u, key x ≠ key a) ∧ (∀ x ∈ v, key x ≠ key a) := by
  obtain ⟨u, v, huv⟩ := List.append_of_mem hmem
  subst huv
  have h2 : key a ∉ u.map key ++ v.map key := by
    have h3 := hnd
    simp only [List.map_append, List.map_cons] at h3
    rw [List.nodup_middle] at h3
    exact (List.nodup_cons.mp h3).1
  rw [List.mem_append] at h2
  push_neg at h2
  refine ⟨u, v, rfl, ?_, ?_⟩
  · intro x hx he
    exact h2.1 (List.mem_map.mpr ⟨x, hx, he⟩)
  · intro x hx he
    exact h2.2 (List.mem_map.mpr ⟨x, hx, he⟩)

/-- Replacing by key twice collapses to replacing by key once. -/
lemma map_replace_twice {l : List GroupAlias} {ga T : GroupAlias} :
    (l.map (fun a => if a.id == ga.id then ga else a)).map
        (fun a => if a.id == ga.id then T else a)
      = l.map (fun a => if a.id == ga.id then T else a) := by
  induction l with
  | nil => rfl
  | cons a t ih =>
    simp only [List.map_cons, ih]
    by_cases h : a.id = ga.id
    · simp [h]
    · simp [h]

/-- The in-place update path: the alias keeps its id and its owning group,
its record is rewritten with the requested name and the resolved mount
data, the invariant is preserved, and the rewritten alias is retrievable by
its id. -/
lemma spec_update_inplace (s : IdentityStore) (mvr : MountValidationResp)
    (nm : String) (w : List String) (ga : GroupAlias) (eg : Group)
    (hs : StoreInv s) (hga : ga ∈ groupAliases s)
    (heg : memDBGroupByAliasID s ga.id = some eg)
    (hcnf : ∀ f, memDBGroupAliasByFactors s mvr.mountAccessor nm = some f →
      f.id = ga.id) :
    ∃ s', commitGroupAlias s ga mvr nm (updateAliasInGroup eg ga) none w
      = (LResponse.success [("id", ga.id), ("group_id", eg.id)] w, s')
    ∧ StoreInv s'
    ∧ memDBGroupAliasByID s' ga.id
        = some ⟨ga.id, nm, mvr.mountType, mvr.mountAccessor, eg.id⟩ := by
  have h0 := memDBGroupByAliasID_some heg
  obtain ⟨hegmem, e, hemem, heid⟩ := h0
  have hflatmem : ∀ b : GroupAlias, b ∈ eg.Alias → b ∈ groupAliases s := by
    intro b hb
    rw [groupAliases, aliasesOf, List.mem_flatMap]
    exact ⟨eg, hegmem, hb⟩
  have hega : ga ∈ eg.Alias := by
    have he2 : e = ga := eq_of_mem_of_nodup_key hs.aNodup (hflatmem e hemem) hga heid
    rw [← he2]; exact hemem
  have hgaid : ga.id ≠ "" :=
    hs.ne_empty (List.mem_append.mpr (Or.inr (mem_aliasIds_of_mem hga)))
  have hegid : eg.id ≠ "" :=
    hs.ne_empty (List.mem_append.mpr (Or.inl (mem_groupIds_of_mem hegmem)))
  obtain ⟨u, v, hsplit, hu, hv⟩ := decomp_of_mem_nodup hegmem hs.gNodup
  have hndeg : (eg.Alias.map GroupAlias.id).Nodup := by
    have h3 := hs.aNodup
    rw [aliasIds, hsplit, aliasesOf_append, aliasesOf_cons] at h3
    simp only [List.map_append] at h3
    exact (List.nodup_append.mp ((List.nodup_append.mp h3).2.1)).1
  obtain ⟨p, q, hpq, hp, hq⟩ := decomp_of_mem_nodup_key hega hndeg
  have hflat2 : aliasesOf s.groups
      = (aliasesOf u ++ p) ++ ga :: (q ++ aliasesOf v) := by
    rw [hsplit, aliasesOf_append, aliasesOf_cons, hpq]
    simp [List.append_assoc]
  have hnotin : ∀ y : GroupAlias,
      (y ∈ aliasesOf u ++ p ∨ y ∈ q ++ aliasesOf v) → y.id ≠ ga.id := by
    have h3 := hs.aNodup
    rw [aliasIds, hflat2, List.map_append, List.map_cons, List.nodup_middle,
      List.nodup_cons] at h3
    intro y hy he
    refine h3.1 ?_
    rw [← he, ← List.map_append]
    rcases hy with hy | hy
    · exact List.mem_map_of_mem _ (List.mem_append.mpr (Or.inl hy))
    · exact List.mem_map_of_mem _ (List.mem_append.mpr (Or.inr hy))
  have hmemflat : ∀ y : GroupAlias,
      (y ∈ aliasesOf u ++ p ∨ y ∈ q ++ aliasesOf v) → y ∈ aliasesOf s.groups := by
    intro y hy
    rw [hflat2]
    rcases hy with hy | hy
    · exact List.mem_append.mpr (Or.inl hy)
    · exact List.mem_append.mpr (Or.inr (List.mem_cons.mpr (Or.inr hy)))
  have hTalias : eg.Alias.map
      (fun a => if a.id == ga.id then
        (⟨ga.id, nm, mvr.mountType, mvr.mountAccessor, eg.id⟩ : GroupAlias) else a)
      = p ++ ⟨ga.id, nm, mvr.mountType, mvr.mountAccessor, eg.id⟩ :: q := by
    rw [hpq, List.map_append, List.map_cons, if_pos (by simp),
      map_if_eq_self (by intro x hx; exact hnotin x (Or.inl (List.mem_append.mpr (Or.inr hx)))),
      map_if_eq_self (by intro x hx; exact hnotin x (Or.inr (List.mem_append.mpr (Or.inl hx))))]
  have hstate : commitGroupAlias s ga mvr nm (updateAliasInGroup eg ga) none w
      = (LResponse.success [("id", ga.id), ("group_id", eg.id)] w,
        ⟨putGroup s.groups
          ⟨eg.id, p ++ ⟨ga.id, nm, mvr.mountType, mvr.mountAccessor, eg.id⟩ :: q⟩,
          s.mounts, s.nextId⟩) := by
    simp only [commitGroupAlias, upsertGroup, updateAliasInGroup]
    simp only [hgaid, hegid, if_neg, ite_false]
    rw [map_replace_twice, hTalias]
  have hput : putGroup s.groups
      ⟨eg.id, p ++ ⟨ga.id, nm, mvr.mountType, mvr.mountAccessor, eg.id⟩ :: q⟩
      = u ++ ⟨eg.id, p ++ ⟨ga.id, nm, mvr.mountType, mvr.mountAccessor, eg.id⟩ :: q⟩ :: v := by
    rw [hsplit]
    exact putGroup_decomp rfl hu hv
  have hflatnew : aliasesOf (u ++
      ⟨eg.id, p ++ ⟨ga.id, nm, mvr.mountType, mvr.mountAccessor, eg.id⟩ :: q⟩ :: v)
      = (aliasesOf u ++ p) ++
        ⟨ga.id, nm, mvr.mountType, mvr.mountAccessor, eg.id⟩ :: (q ++ aliasesOf v) := by
    rw [aliasesOf_append, aliasesOf_cons]
    simp [List.append_assoc]
  refine ⟨_, hstate, ?_, ?_⟩
  · constructor
    · show (groupIds (putGroup _ _)).Nodup
      rw [hput]
      have he3 : groupIds (u ++
          ⟨eg.id, p ++ ⟨ga.id, nm, mvr.mountType, mvr.mountAccessor, eg.id⟩ :: q⟩ :: v)
          = groupIds (u ++ eg :: v) := by
        simp [groupIds]
      rw [he3, ← hsplit]
      exact hs.gNodup
    · show (aliasIds (putGroup _ _)).Nodup
      rw [aliasIds, hput, hflatnew]
      have he4 : (((aliasesOf u ++ p) ++
          (⟨ga.id, nm, mvr.mountType, mvr.mountAccessor, eg.id⟩ : GroupAlias)
            :: (q ++ aliasesOf v)).map GroupAlias.id)
          = aliasIds s.groups := by
        rw [aliasIds, hflat2]
        simp
      rw [he4]
      exact hs.aNodup
    · show (aliasFactors (putGroup _ _)).Nodup
      rw [aliasFactors, hput, hflatnew, List.map_append, List.map_cons]
      rcases hfc : memDBGroupAliasByFactors s mvr.mountAccessor nm with _ | f
      · refine nodup_replace_middle
          (m := [(ga.mountAccessor, ga.name)]) ?_ ?_ ?_
        · have h3 := hs.fNodup
          rw [aliasFactors, hflat2, List.map_append, List.map_cons] at h3
          exact h3
        · intro hmm
          rw [List.mem_map] at hmm
          obtain ⟨a, ha, hae⟩ := hmm
          exact memDBGroupAliasByFactors_none hfc a (hmemflat a (Or.inl ha))
            ⟨congrArg Prod.fst hae, congrArg Prod.snd hae⟩
        · intro hmm
          rw [List.mem_map] at hmm
          obtain ⟨a, ha, hae⟩ := hmm
          exact memDBGroupAliasByFactors_none hfc a (hmemflat a (Or.inr ha))
            ⟨congrArg Prod.fst hae, congrArg Prod.snd hae⟩
      · have hf := memDBGroupAliasByFactors_some hfc
        have hfga : f = ga :=
          eq_of_mem_of_nodup_key hs.aNodup hf.1 hga (hcnf f hfc)
        have hgaf : (ga.mountAccessor, ga.name) = (mvr.mountAccessor, nm) := by
          rw [← hfga]; exact Prod.ext hf.2.1 hf.2.2
        have he5 : ((aliasesOf u ++ p).map (fun a => (a.mountAccessor, a.name)))
            ++ (mvr.mountAccessor, nm) ::
              ((q ++ aliasesOf v).map (fun a => (a.mountAccessor, a.name)))
            = aliasFactors s.groups := by
          rw [aliasFactors, hflat2]
          simp [hgaf]
        rw [he5]
        exact hs.fNodup
    · intro i hi
      show 1 ≤ i.length ∧ i.length ≤ s.nextId
      rw [List.mem_append] at hi
      rcases hi with hi | hi
      · have hgi : groupIds (putGroup s.groups
            ⟨eg.id, p ++ ⟨ga.id, nm, mvr.mountType, mvr.mountAccessor, eg.id⟩ :: q⟩)
            = groupIds s.groups := by
          rw [hput, hsplit]
          simp [groupIds]
        rw [hgi] at hi
        exact hs.idLen i (List.mem_append.mpr (Or.inl hi))
      · have hai : aliasIds (putGroup s.groups
            ⟨eg.id, p ++ ⟨ga.id, nm, mvr.mountType, mvr.mountAccessor, eg.id⟩ :: q⟩)
            = aliasIds s.groups := by
          rw [aliasIds, hput, hflatnew, aliasIds, hflat2]
          simp
        rw [hai] at hi
        exact hs.idLen i (List.mem_append.mpr (Or.inr hi))
  · show (groupAliases _).find? _ = _
    rw [groupAliases]
    show (aliasesOf (putGroup _ _)).find? _ = _
    rw [hput, hflatnew]
    exact find?_eq_some_at
      (by
        intro y hy
        have hne : y.id ≠ ga.id := hnotin y (Or.inl hy)
        simp [hne])
      (by simp)

lemma nodup_of_perm_same {α : Type} {l l' c : List α} {x : α}
    (hl : l.Perm (x :: c)) (hl' : l'.Perm (x :: c)) (h : l.Nodup) : l'.Nodup :=
  hl'.symm.nodup (hl.nodup h)

/-- The alias set of any committed group has duplicate-free alias ids. -/
lemma alias_block_nodup {gs : List Group} (h : (aliasIds gs).Nodup) {g : Group}
    (hg : g ∈ gs) : (g.Alias.map GroupAlias.id).Nodup := by
  obtain ⟨u, v, huv⟩ := List.append_of_mem hg
  subst huv
  rw [aliasIds, aliasesOf_append, aliasesOf_cons] at h
  simp only [List.map_append] at h
  exact (List.nodup_append.mp ((List.nodup_append.mp h).2.1)).1

/-- The two marked positions of a split list carry ids foreign to the rest. -/
lemma nodup_split_facts {gs u v : List Group} {a : Group}
    (hnd : (groupIds gs).Nodup) (hsp : gs = u ++ a :: v) :
    (∀ x ∈ u, x.id ≠ a.id) ∧ (∀ x ∈ v, x.id ≠ a.id) := by
  subst hsp
  have h2 : a.id ∉ u.map Group.id ++ v.map Group.id := by
    have h3 := hnd
    simp only [groupIds, List.map_append, List.map_cons] at h3
    rw [List.nodup_middle] at h3
    exact (List.nodup_cons.mp h3).1
  rw [List.mem_append] at h2
  push_neg at h2
  constructor
  · intro x hx he
    exact h2.1 (List.mem_map.mpr ⟨x, hx, he⟩)
  · intro x hx he
    exact h2.2 (List.mem_map.mpr ⟨x, hx, he⟩)

/-- Invariant transfer: when the new committed state has the same group ids,
the same counter, and a live-alias list that permutes onto the old one with
the single alias ga rewritten to gaFinal (same id, factors either untouched
or globally fresh), the invariant carries over. -/
lemma StoreInv_of_flat_perm {s : IdentityStore} (hs : StoreInv s)
    {final : List Group} {C : List GroupAlias} {ga gaFinal : GroupAlias}
    (hgid : groupIds final = groupIds s.groups)
    (hnew : (aliasesOf final).Perm (gaFinal :: C))
    (hold : (aliasesOf s.groups).Perm (ga :: C))
    (hid : gaFinal.id = ga.id)
    (hfc : (∀ a ∈ aliasesOf s.groups,
          ¬(a.mountAccessor = gaFinal.mountAccessor ∧ a.name = gaFinal.name))
        ∨ ((ga.mountAccessor, ga.name)
            = (gaFinal.mountAccessor, gaFinal.name))) :
    StoreInv ⟨final, s.mounts, s.nextId⟩ := by
  have hmemC : ∀ z ∈ C, z ∈ aliasesOf s.groups := by
    intro z hz
    exact hold.symm.subset (List.mem_cons.mpr (Or.inr hz))
  constructor
  · show (groupIds final).Nodup
    rw [hgid]; exact hs.gNodup
  · show ((aliasesOf final).map GroupAlias.id).Nodup
    have h1 : ((aliasesOf final).map GroupAlias.id).Perm
        (ga.id :: C.map GroupAlias.id) := by
      have := hnew.map GroupAlias.id
      simpa [hid] using this
    have h2 : ((aliasesOf s.groups).map GroupAlias.id).Perm
        (ga.id :: C.map GroupAlias.id) := by
      simpa using hold.map GroupAlias.id
    exact nodup_of_perm_same h2 h1 hs.aNodup
  · show ((aliasesOf final).map (fun a => (a.mountAccessor, a.name))).Nodup
    have h1 : ((aliasesOf final).map (fun a => (a.mountAccessor, a.name))).Perm
        ((gaFinal.mountAccessor, gaFinal.name)
          :: C.map (fun a => (a.mountAccessor, a.name))) := by
      simpa using hnew.map (fun a => (a.mountAccessor, a.name))
    have h2 : ((aliasesOf s.groups).map (fun a => (a.mountAccessor, a.name))).Perm
        ((ga.mountAccessor, ga.name)
          :: C.map (fun a => (a.mountAccessor, a.name))) := by
      simpa using hold.map (fun a => (a.mountAccessor, a.name))
    rcases hfc with hfc | hfc
    · refine nodup_of_perm_subst h2 h1 hs.fNodup ?_
      intro hmm
      rw [List.mem_map] at hmm
      obtain ⟨a, ha, hae⟩ := hmm
      exact hfc a (hmemC a ha)
        ⟨congrArg Prod.fst hae, congrArg Prod.snd hae⟩
    · rw [← hfc] at h1
      exact nodup_of_perm_same h2 h1 hs.fNodup
  · intro i hi
    show 1 ≤ i.length ∧ i.length ≤ s.nextId
    rw [List.mem_append] at hi
    rcases hi with hi | hi
    · rw [show groupIds (⟨final, s.mounts, s.nextId⟩ : IdentityStore).groups
          = groupIds final from rfl, hgid] at hi
      exact hs.idLen i (List.mem_append.mpr (Or.inl hi))
    · have h1 : (aliasIds (⟨final, s.mounts, s.nextId⟩ : IdentityStore).groups).Perm
          (ga.id :: C.map GroupAlias.id) := by
        have := hnew.map GroupAlias.id
        simpa [aliasIds, hid] using this
      have h2 : (aliasIds s.groups).Perm (ga.id :: C.map GroupAlias.id) := by
        simpa [aliasIds] using hold.map GroupAlias.id
      have hi2 : i ∈ aliasIds s.groups := h2.symm.subset (h1.subset hi)
      exact hs.idLen i (List.mem_append.mpr (Or.inr hi2))

/-- The transfer path: the alias keeps its id, its record is rewritten with
the requested name, the resolved mount data and the new owning group id,
the alias leaves the previous group's alias set and is appended to the
target group's alias set, both groups' new state is committed, the warning
is carried on the successful response, and the invariant is preserved. -/
lemma spec_transfer (s : IdentityStore) (mvr : MountValidationResp)
    (nm : String) (w : List String) (ga : GroupAlias) (eg g : Group)
    (hs : StoreInv s) (hga : ga ∈ groupAliases s)
    (heg : memDBGroupByAliasID s ga.id = some eg)
    (hgmem : g ∈ s.groups)
    (hne : g.id ≠ eg.id)
    (hcnf : ∀ f, memDBGroupAliasByFactors s mvr.mountAccessor nm = some f →
      f.id = ga.id) :
    ∃ s', commitGroupAlias s ga mvr nm { g with Alias := g.Alias ++ [ga] }
        (some (deleteAliasFromGroup eg ga)) w
      = (LResponse.success [("id", ga.id), ("group_id", g.id)] w, s')
    ∧ StoreInv s'
    ∧ memDBGroupAliasByID s' ga.id
        = some ⟨ga.id, nm, mvr.mountType, mvr.mountAccessor, g.id⟩
    ∧ memDBGroupByID s' eg.id = some (deleteAliasFromGroup eg ga)
    ∧ (∀ a ∈ (deleteAliasFromGroup eg ga).Alias, a.id ≠ ga.id)
    ∧ memDBGroupByID s' g.id
        = some ⟨g.id, g.Alias ++ [⟨ga.id, nm, mvr.mountType, mvr.mountAccessor, g.id⟩]⟩ := by
  have h0 := memDBGroupByAliasID_some heg
  obtain ⟨hegmem, e, hemem, heid⟩ := h0
  have hflatmem : ∀ b : GroupAlias, b ∈ eg.Alias → b ∈ groupAliases s := by
    intro b hb
    rw [groupAliases, aliasesOf, List.mem_flatMap]
    exact ⟨eg, hegmem, hb⟩
  have hega : ga ∈ eg.Alias := by
    have he2 : e = ga := eq_of_mem_of_nodup_key hs.aNodup (hflatmem e hemem) hga heid
    rw [← he2]; exact hemem
  have hgaid : ga.id ≠ "" :=
    hs.ne_empty (List.mem_append.mpr (Or.inr (mem_aliasIds_of_mem hga)))
  have hgidne : g.id ≠ "" :=
    hs.ne_empty (List.mem_append.mpr (Or.inl (mem_groupIds_of_mem hgmem)))
  have hgneq : eg ≠ g := by
    intro he2; exact hne (by rw [he2])
  have hgnotga : ∀ a ∈ g.Alias, a.id ≠ ga.id := by
    intro a ha hae
    have haflat : a ∈ groupAliases s := by
      rw [groupAliases, aliasesOf, List.mem_flatMap]
      exact ⟨g, hgmem, ha⟩
    have he3 : a = ga := eq_of_mem_of_nodup_key hs.aNodup haflat hga hae
    subst he3
    have h6 : (s.groups.flatMap (fun x => x.Alias.map GroupAlias.id)).Nodup := by
      have h7 := hs.aNodup
      rw [aliasIds, aliasesOf, List.map_flatMap] at h7
      exact h7
    exact flatMap_nodup_disjoint h6 hgmem hegmem (fun he4 => hgneq he4.symm)
      (List.mem_map_of_mem _ ha) (List.mem_map_of_mem _ hega)
  have hndeg := alias_block_nodup hs.aNodup hegmem
  obtain ⟨p, q, hpq, hp, hq⟩ := decomp_of_mem_nodup_key hega hndeg
  have hfp : p.filter (fun a => a.id != ga.id) = p :=
    List.filter_eq_self.mpr (by intro a ha; simpa using hp a ha)
  have hfq : q.filter (fun a => a.id != ga.id) = q :=
    List.filter_eq_self.mpr (by intro a ha; simpa using hq a ha)
  have hprevAl : (deleteAliasFromGroup eg ga).Alias = p ++ q := by
    show eg.Alias.filter (fun a => a.id != ga.id) = p ++ q
    rw [hpq, List.filter_append, hfp, List.filter_cons]
    simp [hfq]
  have hdelnone : ∀ a ∈ (deleteAliasFromGroup eg ga).Alias, a.id ≠ ga.id := by
    intro a ha
    rw [hprevAl, List.mem_append] at ha
    rcases ha with ha | ha
    · exact hp a ha
    · exact hq a ha
  have hTal : (g.Alias ++ [ga]).map
      (fun a => if a.id == ga.id then
        (⟨ga.id, nm, mvr.mountType, mvr.mountAccessor, g.id⟩ : GroupAlias) else a)
      = g.Alias ++ [⟨ga.id, nm, mvr.mountType, mvr.mountAccessor, g.id⟩] := by
    rw [List.map_append, map_if_eq_self hgnotga]
    simp
  have hstate : commitGroupAlias s ga mvr nm { g with Alias := g.Alias ++ [ga] }
      (some (deleteAliasFromGroup eg ga)) w
      = (LResponse.success [("id", ga.id), ("group_id", g.id)] w,
        ⟨putGroup (putGroup s.groups (deleteAliasFromGroup eg ga))
          ⟨g.id, g.Alias ++ [⟨ga.id, nm, mvr.mountType, mvr.mountAccessor, g.id⟩]⟩,
          s.mounts, s.nextId⟩) := by
    simp only [commitGroupAlias, upsertGroup]
    simp only [hgidne, hgaid, if_neg, ite_false]
    rw [hTal]
  have hfind_eg : (putGroup (putGroup s.groups (deleteAliasFromGroup eg ga))
      ⟨g.id, g.Alias ++ [⟨ga.id, nm, mvr.mountType, mvr.mountAccessor, g.id⟩]⟩).find?
        (fun x => x.id == eg.id) = some (deleteAliasFromGroup eg ga) := by
    have h12 := @find?_putGroup_other
      (putGroup s.groups (deleteAliasFromGroup eg ga))
      ⟨g.id, g.Alias ++ [⟨ga.id, nm, mvr.mountType, mvr.mountAccessor, g.id⟩]⟩
      eg.id (Ne.symm hne)
    rw [h12]
    exact find?_putGroup_self s.groups (deleteAliasFromGroup eg ga)
  have hfind_g : (putGroup (putGroup s.groups (deleteAliasFromGroup eg ga))
      ⟨g.id, g.Alias ++ [⟨ga.id, nm, mvr.mountType, mvr.mountAccessor, g.id⟩]⟩).find?
        (fun x => x.id == g.id)
      = some ⟨g.id, g.Alias ++ [⟨ga.id, nm, mvr.mountType, mvr.mountAccessor, g.id⟩]⟩ :=
    find?_putGroup_self
      (putGroup s.groups (deleteAliasFromGroup eg ga))
      ⟨g.id, g.Alias ++ [⟨ga.id, nm, mvr.mountType, mvr.mountAccessor, g.id⟩]⟩
  have hfaccase : (∀ a ∈ aliasesOf s.groups,
        ¬(a.mountAccessor = mvr.mountAccessor ∧ a.name = nm))
      ∨ ((ga.mountAccessor, ga.name) = (mvr.mountAccessor, nm)) := by
    rcases hfc : memDBGroupAliasByFactors s mvr.mountAccessor nm with _ | f
    · exact Or.inl (memDBGroupAliasByFactors_none hfc)
    · have hf := memDBGroupAliasByFactors_some hfc
      have hfga : f = ga :=
        eq_of_mem_of_nodup_key hs.aNodup hf.1 hga (hcnf f hfc)
      exact Or.inr (by rw [← hfga]; exact Prod.ext hf.2.1 hf.2.2)
  rcases mem_mem_split hegmem hgmem hgneq with ⟨U, V, W, hsplit⟩ | ⟨U, V, W, hsplit⟩
  · -- the previous group sits before the target group
    obtain ⟨hUV_g, hW_g⟩ := nodup_split_facts hs.gNodup hsplit
    have hsplitB : s.groups = U ++ eg :: (V ++ g :: W) := by
      rw [hsplit]; simp
    obtain ⟨hU_eg, hZ_eg⟩ := nodup_split_facts hs.gNodup hsplitB
    have hput1 : putGroup s.groups (deleteAliasFromGroup eg ga)
        = U ++ deleteAliasFromGroup eg ga :: (V ++ g :: W) := by
      rw [hsplitB]
      exact putGroup_decomp (T := deleteAliasFromGroup eg ga) rfl hU_eg hZ_eg
    have hput1b : putGroup s.groups (deleteAliasFromGroup eg ga)
        = (U ++ deleteAliasFromGroup eg ga :: V) ++ g :: W := by
      rw [hput1]; simp
    have hput2 : putGroup (putGroup s.groups (deleteAliasFromGroup eg ga))
        ⟨g.id, g.Alias ++ [⟨ga.id, nm, mvr.mountType, mvr.mountAccessor, g.id⟩]⟩
        = (U ++ deleteAliasFromGroup eg ga :: V)
          ++ ⟨g.id, g.Alias ++ [⟨ga.id, nm, mvr.mountType, mvr.mountAccessor, g.id⟩]⟩ :: W := by
      rw [hput1b]
      refine putGroup_decomp
        (T := ⟨g.id, g.Alias ++ [⟨ga.id, nm, mvr.mountType, mvr.mountAccessor, g.id⟩]⟩)
        (rfl : g.id = g.id) ?_ hW_g
      intro x hx
      rw [List.mem_append, List.mem_cons] at hx
      rcases hx with hx | hx | hx
      · exact hUV_g x (List.mem_append.mpr (Or.inl hx))
      · rw [hx]
        show eg.id ≠ _
        exact hUV_g eg (List.mem_append.mpr (Or.inr (List.mem_cons.mpr (Or.inl rfl))))
      · exact hUV_g x (List.mem_append.mpr (Or.inr (List.mem_cons.mpr (Or.inr hx))))
    have hgidEq : groupIds ((U ++ deleteAliasFromGroup eg ga :: V)
        ++ ⟨g.id, g.Alias ++ [⟨ga.id, nm, mvr.mountType, mvr.mountAccessor, g.id⟩]⟩ :: W)
        = groupIds s.groups := by
      rw [hsplit]
      simp [groupIds, deleteAliasFromGroup]
    have hCnew : aliasesOf ((U ++ deleteAliasFromGroup eg ga :: V)
        ++ ⟨g.id, g.Alias ++ [⟨ga.id, nm, mvr.mountType, mvr.mountAccessor, g.id⟩]⟩ :: W)
        = (aliasesOf U ++ (p ++ (q ++ (aliasesOf V ++ g.Alias))))
          ++ ⟨ga.id, nm, mvr.mountType, mvr.mountAccessor, g.id⟩ :: aliasesOf W := by
      simp only [aliasesOf_append, aliasesOf_cons, hprevAl]
      simp [List.append_assoc]
    have hCold : aliasesOf s.groups
        = (aliasesOf U ++ p)
          ++ ga :: (q ++ (aliasesOf V ++ (g.Alias ++ aliasesOf W))) := by
      rw [hsplitB]
      simp only [aliasesOf_append, aliasesOf_cons, hpq]
      simp [List.append_assoc]
    have e1 : (aliasesOf U ++ (p ++ (q ++ (aliasesOf V ++ g.Alias)))) ++ aliasesOf W
        = aliasesOf U ++ (p ++ (q ++ (aliasesOf V ++ (g.Alias ++ aliasesOf W)))) := by
      simp [List.append_assoc]
    have e2 : (aliasesOf U ++ p) ++ (q ++ (aliasesOf V ++ (g.Alias ++ aliasesOf W)))
        = aliasesOf U ++ (p ++ (q ++ (aliasesOf V ++ (g.Alias ++ aliasesOf W)))) := by
      simp [List.append_assoc]
    have hpermnew : (aliasesOf ((U ++ deleteAliasFromGroup eg ga :: V)
        ++ ⟨g.id, g.Alias ++ [⟨ga.id, nm, mvr.mountType, mvr.mountAccessor, g.id⟩]⟩ :: W)).Perm
        (⟨ga.id, nm, mvr.mountType, mvr.mountAccessor, g.id⟩
          :: (aliasesOf U ++ (p ++ (q ++ (aliasesOf V ++ (g.Alias ++ aliasesOf W)))))) := by
      rw [hCnew]
      have h8 := @List.perm_middle GroupAlias
        ⟨ga.id, nm, mvr.mountType, mvr.mountAccessor, g.id⟩
        (aliasesOf U ++ (p ++ (q ++ (aliasesOf V ++ g.Alias))))
        (aliasesOf W)
      rwa [e1] at h8
    have hpermold : (aliasesOf s.groups).Perm
        (ga :: (aliasesOf U ++ (p ++ (q ++ (aliasesOf V ++ (g.Alias ++ aliasesOf W)))))) := by
      rw [hCold]
      have h8 := @List.perm_middle GroupAlias ga (aliasesOf U ++ p)
        (q ++ (aliasesOf V ++ (g.Alias ++ aliasesOf W)))
      rwa [e2] at h8
    have hinv : StoreInv ⟨(U ++ deleteAliasFromGroup eg ga :: V)
        ++ ⟨g.id, g.Alias ++ [⟨ga.id, nm, mvr.mountType, mvr.mountAccessor, g.id⟩]⟩ :: W,
        s.mounts, s.nextId⟩ :=
      StoreInv_of_flat_perm hs hgidEq hpermnew hpermold rfl hfaccase
    have hga_notin : ga.id ∉ (aliasesOf U ++ (p ++ (q ++ (aliasesOf V
        ++ (g.Alias ++ aliasesOf W))))).map GroupAlias.id := by
      have h9 : ((aliasesOf s.groups).map GroupAlias.id).Perm
          (ga.id :: (aliasesOf U ++ (p ++ (q ++ (aliasesOf V
            ++ (g.Alias ++ aliasesOf W))))).map GroupAlias.id) := by
        simpa using hpermold.map GroupAlias.id
      have h10 := h9.nodup hs.aNodup
      exact (List.nodup_cons.mp h10).1
    have hpre : ∀ y ∈ aliasesOf U ++ (p ++ (q ++ (aliasesOf V ++ g.Alias))),
        y.id ≠ ga.id := by
      intro y hy he
      apply hga_notin
      rw [← he]
      apply List.mem_map_of_mem
      have h11 : y ∈ (aliasesOf U ++ (p ++ (q ++ (aliasesOf V ++ g.Alias))))
          ++ aliasesOf W := List.mem_append.mpr (Or.inl hy)
      rwa [e1] at h11
    refine ⟨_, hstate, ?_, ?_, hfind_eg, hdelnone, hfind_g⟩
    · show StoreInv ⟨putGroup _ _, s.mounts, s.nextId⟩
      rw [hput2]
      exact hinv
    · show (groupAliases _).find? _ = _
      rw [groupAliases]
      show (aliasesOf (putGroup _ _)).find? _ = _
      rw [hput2, hCnew]
      exact find?_eq_some_at
        (by intro y hy; simp [hpre y hy])
        (by simp)
  · -- the target group sits before the previous group
    obtain ⟨hUV_eg, hW_eg⟩ := nodup_split_facts hs.gNodup hsplit
    have hsplitB : s.groups = U ++ g :: (V ++ eg :: W) := by
      rw [hsplit]; simp
    obtain ⟨hU_g, hZ_g⟩ := nodup_split_facts hs.gNodup hsplitB
    have hput1 : putGroup s.groups (deleteAliasFromGroup eg ga)
        = (U ++ g :: V) ++ deleteAliasFromGroup eg ga :: W := by
      rw [hsplit]
      exact putGroup_decomp (T := deleteAliasFromGroup eg ga) rfl hUV_eg hW_eg
    have hput1b : putGroup s.groups (deleteAliasFromGroup eg ga)
        = U ++ g :: (V ++ deleteAliasFromGroup eg ga :: W) := by
      rw [hput1]; simp
    have hput2 : putGroup (putGroup s.groups (deleteAliasFromGroup eg ga))
        ⟨g.id, g.Alias ++ [⟨ga.id, nm, mvr.mountType, mvr.mountAccessor, g.id⟩]⟩
        = U ++ ⟨g.id, g.Alias ++ [⟨ga.id, nm, mvr.mountType, mvr.mountAccessor, g.id⟩]⟩
          :: (V ++ deleteAliasFromGroup eg ga :: W) := by
      rw [hput1b]
      refine putGroup_decomp
        (T := ⟨g.id, g.Alias ++ [⟨ga.id, nm, mvr.mountType, mvr.mountAccessor, g.id⟩]⟩)
        (rfl : g.id = g.id) hU_g ?_
      intro x hx
      rw [List.mem_append, List.mem_cons] at hx
      rcases hx with hx | hx | hx
      · exact hZ_g x (List.mem_append.mpr (Or.inl hx))
      · rw [hx]
        show eg.id ≠ _
        exact hZ_g eg (List.mem_append.mpr (Or.inr (List.mem_cons.mpr (Or.inl rfl))))
      · exact hZ_g x (List.mem_append.mpr (Or.inr (List.mem_cons.mpr (Or.inr hx))))
    have hgidEq : groupIds (U
        ++ ⟨g.id, g.Alias ++ [⟨ga.id, nm, mvr.mountType, mvr.mountAccessor, g.id⟩]⟩
          :: (V ++ deleteAliasFromGroup eg ga :: W))
        = groupIds s.groups := by
      rw [hsplit]
      simp [groupIds, deleteAliasFromGroup]
    have hCnew : aliasesOf (U
        ++ ⟨g.id, g.Alias ++ [⟨ga.id, nm, mvr.mountType, mvr.mountAccessor, g.id⟩]⟩
          :: (V ++ deleteAliasFromGroup eg ga :: W))
        = (aliasesOf U ++ g.Alias)
          ++ ⟨ga.id, nm, mvr.mountType, mvr.mountAccessor, g.id⟩
            :: (aliasesOf V ++ (p ++ (q ++ aliasesOf W))) := by
      simp only [aliasesOf_append, aliasesOf_cons, hprevAl]
      simp [List.append_assoc]
    have hCold : aliasesOf s.groups
        = (aliasesOf U ++ (g.Alias ++ (aliasesOf V ++ p)))
          ++ ga :: (q ++ aliasesOf W) := by
      rw [hsplitB]
      simp only [aliasesOf_append, aliasesOf_cons, hpq]
      simp [List.append_assoc]
    have e1 : (aliasesOf U ++ g.Alias) ++ (aliasesOf V ++ (p ++ (q ++ aliasesOf W)))
        = aliasesOf U ++ (g.Alias ++ (aliasesOf V ++ (p ++ (q ++ aliasesOf W)))) := by
      simp [List.append_assoc]
    have e2 : (aliasesOf U ++ (g.Alias ++ (aliasesOf V ++ p))) ++ (q ++ aliasesOf W)
        = aliasesOf U ++ (g.Alias ++ (aliasesOf V ++ (p ++ (q ++ aliasesOf W)))) := by
      simp [List.append_assoc]
    have hpermnew : (aliasesOf (U
        ++ ⟨g.id, g.Alias ++ [⟨ga.id, nm, mvr.mountType, mvr.mountAccessor, g.id⟩]⟩
          :: (V ++ deleteAliasFromGroup eg ga :: W))).Perm
        (⟨ga.id, nm, mvr.mountType, mvr.mountAccessor, g.id⟩
          :: (aliasesOf U ++ (g.Alias ++ (aliasesOf V ++ (p ++ (q ++ aliasesOf W)))))) := by
      rw [hCnew]
      have h8 := @List.perm_middle GroupAlias
        ⟨ga.id, nm, mvr.mountType, mvr.mountAccessor, g.id⟩
        (aliasesOf U ++ g.Alias)
        (aliasesOf V ++ (p ++ (q ++ aliasesOf W)))
      rwa [e1] at h8
    have hpermold : (aliasesOf s.groups).Perm
        (ga :: (aliasesOf U ++ (g.Alias ++ (aliasesOf V ++ (p ++ (q ++ aliasesOf W)))))) := by
      rw [hCold]
      have h8 := @List.perm_middle GroupAlias ga
        (aliasesOf U ++ (g.Alias ++ (aliasesOf V ++ p)))
        (q ++ aliasesOf W)
      rwa [e2] at h8
    have hinv : StoreInv ⟨U
        ++ ⟨g.id, g.Alias ++ [⟨ga.id, nm, mvr.mountType, mvr.mountAccessor, g.id⟩]⟩
          :: (V ++ deleteAliasFromGroup eg ga :: W),
        s.mounts, s.nextId⟩ :=
      StoreInv_of_flat_perm hs hgidEq hpermnew hpermold rfl hfaccase
    have hga_notin : ga.id ∉ (aliasesOf U ++ (g.Alias ++ (aliasesOf V
        ++ (p ++ (q ++ aliasesOf W))))).map GroupAlias.id := by
      have h9 : ((aliasesOf s.groups).map GroupAlias.id).Perm
          (ga.id :: (aliasesOf U ++ (g.Alias ++ (aliasesOf V
            ++ (p ++ (q ++ aliasesOf W))))).map GroupAlias.id) := by
        simpa using hpermold.map GroupAlias.id
      have h10 := h9.nodup hs.aNodup
      exact (List.nodup_cons.mp h10).1
    have hpre : ∀ y ∈ aliasesOf U ++ g.Alias, y.id ≠ ga.id := by
      intro y hy he
      apply hga_notin
      rw [← he]
      apply List.mem_map_of_mem
      have h11 : y ∈ (aliasesOf U ++ g.Alias)
          ++ (aliasesOf V ++ (p ++ (q ++ aliasesOf W))) :=
        List.mem_append.mpr (Or.inl hy)
      rwa [e1] at h11
    refine ⟨_, hstate, ?_, ?_, hfind_eg, hdelnone, hfind_g⟩
    · show StoreInv ⟨putGroup _ _, s.mounts, s.nextId⟩
      rw [hput2]
      exact hinv
    · show (groupAliases _).find? _ = _
      rw [groupAliases]
      show (aliasesOf (putGroup _ _)).find? _ = _
      rw [hput2, hCnew]
      exact find?_eq_some_at
        (by intro y hy; simp [hpre y hy])
        (by simp)

/-- What a successful register response certifies: the data carries the
alias id and group id, the mount accessor resolved, the alias id is
non-empty, and the committed store returns the rewritten alias, carrying
the requested name and the resolved mount accessor, under that id. -/
def RegisterSuccess (s : IdentityStore) (d : Fields)
    (r : LResponse × IdentityStore) : Prop :=
  StoreInv r.2 ∧
  ∀ dat w, r.1 = LResponse.success dat w →
    ∃ aid gid mvr,
      dat = [("id", aid), ("group_id", gid)]
      ∧ validateMountAccessorFunc s (d.mount_accessor.getD "") = some mvr
      ∧ aid ≠ ""
      ∧ memDBGroupAliasByID r.2 aid
          = some ⟨aid, d.name.getD "", mvr.mountType, mvr.mountAccessor, gid⟩

lemma core_spec (s : IdentityStore) (d : Fields) (gopt : Option GroupAlias)
    (gf : Option Group) (mvr : MountValidationResp) (hs : StoreInv s)
    (hmem : ∀ ga, gopt = some ga → ga ∈ groupAliases s)
    (hgf : ∀ g, gf = some g → g ∈ s.groups)
    (hval : validateMountAccessorFunc s (d.mount_accessor.getD "") = some mvr) :
    RegisterSuccess s d (handleGroupAliasCore s d gopt gf mvr) := by
  cases gopt with
  | none =>
    by_cases hfacS :
        (memDBGroupAliasByFactors s mvr.mountAccessor (d.name.getD "")).isSome = true
    · constructor
      · simp only [handleGroupAliasCore, if_pos hfacS]
        exact hs
      · intro dat w h
        simp only [handleGroupAliasCore, if_pos hfacS] at h
        exact absurd h (by simp)
    · have hfac : memDBGroupAliasByFactors s mvr.mountAccessor (d.name.getD "") = none :=
        Option.not_isSome_iff_eq_none.mp hfacS
      cases gf with
      | none =>
        obtain ⟨s', heq, hseq, hinv, hfind⟩ :=
          spec_create_new s mvr (d.name.getD "") [] hs hfac
        have hred : handleGroupAliasCore s d none none mvr
            = (LResponse.success
                [("id", freshId (s.nextId + 1)), ("group_id", freshId s.nextId)] [], s') := by
          simp only [handleGroupAliasCore, if_neg hfacS]
          exact heq
        constructor
        · rw [hred]; exact hinv
        · intro dat w h
          rw [hred] at h
          simp only [LResponse.success.injEq] at h
          refine ⟨freshId (s.nextId + 1), freshId s.nextId, mvr, h.1.symm, hval,
            freshId_ne_empty _, ?_⟩
          rw [hred]
          exact hfind
      | some g =>
        obtain ⟨s', heq, hseq, hinv, hfind, hfindg⟩ :=
          spec_create_existing s mvr (d.name.getD "") [] g hs (hgf g rfl) hfac
        have hred : handleGroupAliasCore s d none (some g) mvr
            = (LResponse.success
                [("id", freshId s.nextId), ("group_id", g.id)] [], s') := by
          simp only [handleGroupAliasCore, if_neg hfacS]
          exact heq
        constructor
        · rw [hred]; exact hinv
        · intro dat w h
          rw [hred] at h
          simp only [LResponse.success.injEq] at h
          refine ⟨freshId s.nextId, g.id, mvr, h.1.symm, hval, freshId_ne_empty _, ?_⟩
          rw [hred]
          exact hfind
  | some ga =>
    have hgamem : ga ∈ groupAliases s := hmem ga rfl
    by_cases hcf : (match memDBGroupAliasByFactors s mvr.mountAccessor (d.name.getD "") with
        | some f => f.id != ga.id
        | none => false) = true
    · constructor
      · simp only [handleGroupAliasCore, if_pos hcf]
        exact hs
      · intro dat w h
        simp only [handleGroupAliasCore, if_pos hcf] at h
        exact absurd h (by simp)
    · have hcnf : ∀ f, memDBGroupAliasByFactors s mvr.mountAccessor (d.name.getD "")
          = some f → f.id = ga.id := by
        intro f hf
        rw [hf] at hcf
        simpa using hcf
      cases hbyal : memDBGroupByAliasID s ga.id with
      | none =>
        constructor
        · simp only [handleGroupAliasCore, if_neg hcf, hbyal]
          exact hs
        · intro dat w h
          simp only [handleGroupAliasCore, if_neg hcf, hbyal] at h
          exact absurd h (by simp)
      | some eg =>
        cases gf with
        | none =>
          obtain ⟨s', heq, hinv, hfind⟩ :=
            spec_update_inplace s mvr (d.name.getD "") [] ga eg hs hgamem hbyal hcnf
          have hred : handleGroupAliasCore s d (some ga) none mvr
              = (LResponse.success [("id", ga.id), ("group_id", eg.id)] [], s') := by
            simp only [handleGroupAliasCore, if_neg hcf, hbyal]
            exact heq
          constructor
          · rw [hred]; exact hinv
          · intro dat w h
            rw [hred] at h
            simp only [LResponse.success.injEq] at h
            refine ⟨ga.id, eg.id, mvr, h.1.symm, hval,
              hs.ne_empty (List.mem_append.mpr (Or.inr (mem_aliasIds_of_mem hgamem))), ?_⟩
            rw [hred]
            exact hfind
        | some g =>
          by_cases hgeq : g.id ≠ eg.id
          · obtain ⟨s', heq, hinv, hfind, hfeg, hdel, hfg⟩ :=
              spec_transfer s mvr (d.name.getD "")
                ["group alias is being transferred from group \"" ++ eg.id
                  ++ "\" to \"" ++ g.id ++ "\""]
                ga eg g hs hgamem hbyal (hgf g rfl) hgeq hcnf
            have hred : handleGroupAliasCore s d (some ga) (some g) mvr
                = (LResponse.success [("id", ga.id), ("group_id", g.id)]
                    ["group alias is being transferred from group \"" ++ eg.id
                      ++ "\" to \"" ++ g.id ++ "\""], s') := by
              simp only [handleGroupAliasCore, if_neg hcf, hbyal, if_pos hgeq]
              exact heq
            constructor
            · rw [hred]; exact hinv
            · intro dat w h
              rw [hred] at h
              simp only [LResponse.success.injEq] at h
              refine ⟨ga.id, g.id, mvr, h.1.symm, hval,
                hs.ne_empty (List.mem_append.mpr (Or.inr (mem_aliasIds_of_mem hgamem))), ?_⟩
              rw [hred]
              exact hfind
          · obtain ⟨s', heq, hinv, hfind⟩ :=
              spec_update_inplace s mvr (d.name.getD "") [] ga eg hs hgamem hbyal hcnf
            have hred : handleGroupAliasCore s d (some ga) (some g) mvr
                = (LResponse.success [("id", ga.id), ("group_id", eg.id)] [], s') := by
              simp only [handleGroupAliasCore, if_neg hcf, hbyal, if_neg hgeq]
              exact heq
            constructor
            · rw [hred]; exact hinv
            · intro dat w h
              rw [hred] at h
              simp only [LResponse.success.injEq] at h
              refine ⟨ga.id, eg.id, mvr, h.1.symm, hval,
                hs.ne_empty (List.mem_append.mpr (Or.inr (mem_aliasIds_of_mem hgamem))), ?_⟩
              rw [hred]
              exact hfind

lemma stage2_spec (s : IdentityStore) (d : Fields) (gopt : Option GroupAlias)
    (gf : Option Group) (hs : StoreInv s)
    (hmem : ∀ ga, gopt = some ga → ga ∈ groupAliases s)
    (hgf : ∀ g, gf = some g → g ∈ s.groups) :
    RegisterSuccess s d (handleGroupAliasStage2 s d gopt gf) := by
  by_cases hnm : d.name.getD "" = ""
  · constructor
    · simp only [handleGroupAliasStage2, if_pos hnm]; exact hs
    · intro dat w h
      simp only [handleGroupAliasStage2, if_pos hnm] at h
      exact absurd h (by simp)
  · by_cases hma : d.mount_accessor.getD "" = ""
    · constructor
      · simp only [handleGroupAliasStage2, if_neg hnm, if_pos hma]; exact hs
      · intro dat w h
        simp only [handleGroupAliasStage2, if_neg hnm, if_pos hma] at h
        exact absurd h (by simp)
    · cases hval : validateMountAccessorFunc s (d.mount_accessor.getD "") with
      | none =>
        constructor
        · simp only [handleGroupAliasStage2, if_neg hnm, if_neg hma, hval]; exact hs
        · intro dat w h
          simp only [handleGroupAliasStage2, if_neg hnm, if_neg hma, hval] at h
          exact absurd h (by simp)
      | some mvr =>
        have hred : handleGroupAliasStage2 s d gopt gf
            = handleGroupAliasCore s d gopt gf mvr := by
          simp only [handleGroupAliasStage2, if_neg hnm, if_neg hma, hval]
        rw [hred]
        exact core_spec s d gopt gf mvr hs hmem hgf hval

lemma handle_spec (s : IdentityStore) (d : Fields) (gopt : Option GroupAlias)
    (hs : StoreInv s)
    (hmem : ∀ ga, gopt = some ga → ga ∈ groupAliases s) :
    RegisterSuccess s d (handleGroupAliasUpdateCommon s d gopt) := by
  by_cases hg0 : d.group_id.getD "" = ""
  · have hred : handleGroupAliasUpdateCommon s d gopt
        = handleGroupAliasStage2 s d gopt none := by
      simp only [handleGroupAliasUpdateCommon, if_pos hg0]
    rw [hred]
    exact stage2_spec s d gopt none hs hmem (by intro g h; exact absurd h (by simp))
  · cases hgl : memDBGroupByID s (d.group_id.getD "") with
    | none =>
      have hred : handleGroupAliasUpdateCommon s d gopt
          = (LResponse.errorResponse "invalid group ID", s) := by
        simp only [handleGroupAliasUpdateCommon, if_neg hg0, hgl]
        rfl
      rw [hred]
      constructor
      · exact hs
      · intro dat w h
        exact absurd h (by simp)
    | some g =>
      have hred : handleGroupAliasUpdateCommon s d gopt
          = handleGroupAliasStage2 s d gopt (some g) := by
        simp only [handleGroupAliasUpdateCommon, if_neg hg0, hgl]
        rfl
      rw [hred]
      refine stage2_spec s d gopt (some g) hs hmem ?_
      intro g2 h2
      have h3 : g2 = g := by simpa using h2.symm
      rw [h3]
      exact (memDBGroupByID_some hgl).1

lemma register_spec (s : IdentityStore) (d : Fields) (hs : StoreInv s) :
    RegisterSuccess s d (pathGroupAliasRegister s d) := by
  rw [pathGroupAliasRegister]
  by_cases hid : d.id.isSome = true
  · rw [if_pos hid, pathGroupAliasIDUpdate]
    by_cases hid0 : d.id.getD "" = ""
    · rw [if_pos hid0]
      constructor
      · exact hs
      · intro dat w h
        exact absurd h (by simp)
    · rw [if_neg hid0]
      cases hal : memDBGroupAliasByID s (d.id.getD "") with
      | none =>
        constructor
        · exact hs
        · intro dat w h
          exact absurd h (by simp)
      | some ga =>
        refine handle_spec s d (some ga) hs ?_
        intro ga2 h2
        have h3 : ga2 = ga := by simpa using h2.symm
        rw [h3]
        exact (memDBGroupAliasByID_some hal).1
  · rw [if_neg hid]
    exact handle_spec s d none hs (by intro ga h; exact absurd h (by simp))

lemma handle_groupField_empty {s : IdentityStore} {d : Fields}
    {gopt : Option GroupAlias} (h : d.group_id.getD "" = "") :
    handleGroupAliasUpdateCommon s d gopt = handleGroupAliasStage2 s d gopt none := by
  simp only [handleGroupAliasUpdateCommon, if_pos h]

lemma handle_groupField_some {s : IdentityStore} {d : Fields}
    {gopt : Option GroupAlias} {g : Group} (h0 : d.group_id.getD "" ≠ "")
    (h : memDBGroupByID s (d.group_id.getD "") = some g) :
    handleGroupAliasUpdateCommon s d gopt = handleGroupAliasStage2 s d gopt (some g) := by
  simp only [handleGroupAliasUpdateCommon, if_neg h0, h]
  rfl

lemma handle_groupField_invalid {s : IdentityStore} {d : Fields}
    {gopt : Option GroupAlias} (h0 : d.group_id.getD "" ≠ "")
    (h : memDBGroupByID s (d.group_id.getD "") = none) :
    handleGroupAliasUpdateCommon s d gopt
      = (LResponse.errorResponse "invalid group ID", s) := by
  simp only [handleGroupAliasUpdateCommon, if_neg h0, h]
  rfl

lemma stage2_to_core {s : IdentityStore} {d : Fields} {gopt : Option GroupAlias}
    {gf : Option Group} {mvr : MountValidationResp}
    (hnm : d.name.getD "" ≠ "") (hma : d.mount_accessor.getD "" ≠ "")
    (hval : validateMountAccessorFunc s (d.mount_accessor.getD "") = some mvr) :
    handleGroupAliasStage2 s d gopt gf = handleGroupAliasCore s d gopt gf mvr := by
  simp only [handleGroupAliasStage2, if_neg hnm, if_neg hma, hval]

lemma register_to_handle_create {s : IdentityStore} {d : Fields} (h : d.id = none) :
    pathGroupAliasRegister s d = handleGroupAliasUpdateCommon s d none := by
  rw [pathGroupAliasRegister, if_neg (by simp [h])]

lemma register_to_update {s : IdentityStore} {d : Fields} {x : String}
    (h : d.id = some x) :
    pathGroupAliasRegister s d = pathGroupAliasIDUpdate s d := by
  rw [pathGroupAliasRegister, if_pos (by simp [h])]

lemma update_to_handle {s : IdentityStore} {d : Fields} {x : String}
    {ga : GroupAlias} (h : d.id = some x) (hx : x ≠ "")
    (hal : memDBGroupAliasByID s x = some ga) :
    pathGroupAliasIDUpdate s d = handleGroupAliasUpdateCommon s d (some ga) := by
  have hgd : d.id.getD "" = x := by rw [h]; rfl
  rw [pathGroupAliasIDUpdate, hgd, if_neg hx, hal]

/-- The create path rejects a factor collision with the uniqueness error and
leaves the store untouched. -/
lemma register_create_conflict (s : IdentityStore) (d : Fields)
    (mvr : MountValidationResp) (f : GroupAlias)
    (hid : d.id = none)
    (hg : d.group_id.getD "" = "" ∨
      ∃ g, memDBGroupByID s (d.group_id.getD "") = some g)
    (hnm : d.name.getD "" ≠ "") (hma : d.mount_accessor.getD "" ≠ "")
    (hval : validateMountAccessorFunc s (d.mount_accessor.getD "") = some mvr)
    (hfac : memDBGroupAliasByFactors s mvr.mountAccessor (d.name.getD "") = some f) :
    pathGroupAliasRegister s d
      = (LResponse.errorResponse
          "combination of mount and group alias name is already in use", s) := by
  rw [register_to_handle_create hid]
  have hcore : ∀ gf : Option Group,
      handleGroupAliasCore s d none gf mvr
        = (LResponse.errorResponse
            "combination of mount and group alias name is already in use", s) := by
    intro gf
    simp [handleGroupAliasCore, hfac]
  by_cases h0 : d.group_id.getD "" = ""
  · rw [handle_groupField_empty h0, stage2_to_core hnm hma hval, hcore]
  · rcases hg with hg | ⟨g, hg⟩
    · exact absurd hg h0
    · rw [handle_groupField_some h0 hg, stage2_to_core hnm hma hval, hcore]

/-- The update path rejects renaming onto another alias's factors with the
uniqueness error and leaves the store untouched. -/
lemma register_update_conflict (s : IdentityStore) (d : Fields) (x : String)
    (ga : GroupAlias) (mvr : MountValidationResp) (f : GroupAlias)
    (hid : d.id = some x) (hx : x ≠ "")
    (hal : memDBGroupAliasByID s x = some ga)
    (hg : d.group_id.getD "" = "" ∨
      ∃ g, memDBGroupByID s (d.group_id.getD "") = some g)
    (hnm : d.name.getD "" ≠ "") (hma : d.mount_accessor.getD "" ≠ "")
    (hval : validateMountAccessorFunc s (d.mount_accessor.getD "") = some mvr)
    (hfac : memDBGroupAliasByFactors s mvr.mountAccessor (d.name.getD "") = some f)
    (hfne : f.id ≠ ga.id) :
    pathGroupAliasRegister s d
      = (LResponse.errorResponse
          "combination of mount and group alias name is already in use", s) := by
  rw [register_to_update hid, update_to_handle hid hx hal]
  have hcore : ∀ gf : Option Group,
      handleGroupAliasCore s d (some ga) gf mvr
        = (LResponse.errorResponse
            "combination of mount and group alias name is already in use", s) := by
    intro gf
    have hbne : (f.id != ga.id) = true := by simpa using hfne
    simp [handleGroupAliasCore, hfac, hbne]
  by_cases h0 : d.group_id.getD "" = ""
  · rw [handle_groupField_empty h0, stage2_to_core hnm hma hval, hcore]
  · rcases hg with hg | ⟨g, hg⟩
    · exact absurd hg h0
    · rw [handle_groupField_some h0 hg, stage2_to_core hnm hma hval, hcore]

/-- Register preserves the invariant. -/
lemma register_preserves {s : IdentityStore} (d : Fields) (hs : StoreInv s) :
    StoreInv (pathGroupAliasRegister s d).2 := (register_spec s d hs).1

/-- Every state reached by a sequence of register operations from the
initial store satisfies the invariant. -/
lemma StoreInv_runRegisters (mounts : List (String × MountValidationResp))
    (ops : List Fields) : StoreInv (runRegisters mounts ops) := by
  rw [runRegisters]
  have h : ∀ (l : List Fields) (s : IdentityStore), StoreInv s →
      StoreInv (l.foldl (fun s d => (pathGroupAliasRegister s d).2) s) := by
    intro l
    induction l with
    | nil => intro s hs; exact hs
    | cons d t ih =>
      intro s hs
      exact ih _ (register_preserves d hs)
  exact h ops _ (StoreInv_initStore mounts)

/-- Deleting an id that denotes no live alias leaves the store untouched
and succeeds with the nil response. -/
lemma delete_notfound {s : IdentityStore} {d : Fields} {x : String}
    (h : d.id = some x) (hx : x ≠ "") (hal : memDBGroupAliasByID s x = none) :
    pathAliasIDDelete s d = (LResponse.noneResponse, s) := by
  have hgd : d.id.getD "" = x := by rw [h]; rfl
  rw [pathAliasIDDelete, hgd, if_neg hx]
  simp only [deleteGroupAlias, hal]

/-- After a delete, the deleted id no longer denotes a live alias. -/
lemma delete_removes {s : IdentityStore} (hs : StoreInv s) (aid : String) :
    memDBGroupAliasByID (deleteGroupAlias s aid) aid = none := by
  cases hal : memDBGroupAliasByID s aid with
  | none =>
    simp only [deleteGroupAlias, hal]
  | some ga =>
    obtain ⟨hgamem, hgaid⟩ := memDBGroupAliasByID_some hal
    have hbySome : (memDBGroupByAliasID s aid).isSome := by
      have h1 := memDBGroupByAliasID_isSome hgamem
      rwa [hgaid] at h1
    obtain ⟨g, hbyal⟩ := Option.isSome_iff_exists.mp hbySome
    obtain ⟨hgmem2, e, hemem, heid⟩ := memDBGroupByAliasID_some hbyal
    have heflat : e ∈ groupAliases s := by
      rw [groupAliases, aliasesOf, List.mem_flatMap]
      exact ⟨g, hgmem2, hemem⟩
    have hega : ga ∈ g.Alias := by
      have he2 : e = ga :=
        eq_of_mem_of_nodup_key hs.aNodup heflat hgamem (by rw [heid, hgaid])
      rw [← he2]; exact hemem
    have hred : deleteGroupAlias s aid
        = { s with groups := putGroup s.groups (deleteAliasFromGroup g ga) } := by
      simp only [deleteGroupAlias, hal, hbyal]
    rw [hred, memDBGroupAliasByID]
    apply List.find?_eq_none.mpr
    intro a ha hpa
    have haid : a.id = aid := by simpa using hpa
    have hany : s.groups.any (fun x => x.id == (deleteAliasFromGroup g ga).id) = true := by
      rw [List.any_eq_true]
      exact ⟨g, hgmem2, by simp [deleteAliasFromGroup]⟩
    have hflat : a ∈ aliasesOf (putGroup s.groups (deleteAliasFromGroup g ga)) := ha
    rw [putGroup_of_any hany, aliasesOf, List.flatMap_map, List.mem_flatMap] at hflat
    obtain ⟨h, hhmem, hha⟩ := hflat
    by_cases hhid : (h.id == (deleteAliasFromGroup g ga).id) = true
    · rw [if_pos hhid] at hha
      simp only [deleteAliasFromGroup] at hha
      have h3 := (List.mem_filter.mp hha).2
      rw [haid, ← hgaid] at h3
      simp at h3
    · rw [if_neg hhid] at hha
      have haflat : a ∈ groupAliases s := by
        rw [groupAliases, aliasesOf, List.mem_flatMap]
        exact ⟨h, hhmem, hha⟩
      have hag : a = ga :=
        eq_of_mem_of_nodup_key hs.aNodup haflat hgamem (by rw [haid, hgaid])
      subst hag
      have hneq : h ≠ g := by
        intro he3
        apply hhid
        rw [he3]
        simp [deleteAliasFromGroup]
      have h6 : (s.groups.flatMap (fun x => x.Alias.map GroupAlias.id)).Nodup := by
        have h7 := hs.aNodup
        rw [aliasIds, aliasesOf, List.map_flatMap] at h7
        exact h7
      exact flatMap_nodup_disjoint h6 hhmem hgmem2 hneq
        (List.mem_map_of_mem _ hha) (List.mem_map_of_mem _ hega)

/-- A one-mount validator table used by the concrete instances. -/
def exMounts : List (String × MountValidationResp) := [("m", ⟨"m", "userpass"⟩)]

/-- A concrete alias: name n1 on mount m, owned by group g. -/
def exAlias : GroupAlias := ⟨"a", "n1", "userpass", "m", "g"⟩

/-- A concrete group holding exAlias. -/
def exGroup : Group := ⟨"g", [exAlias]⟩

/-- A concrete store holding exGroup. -/
def exStore : IdentityStore := ⟨[exGroup], exMounts, 3⟩

/-- A concrete store holding exGroup and an empty second group. -/
def exStore2 : IdentityStore := ⟨[exGroup, ⟨"h", []⟩], exMounts, 3⟩

/-- A second concrete alias: name n2 on mount m, owned by group h. -/
def exAliasB : GroupAlias := ⟨"b", "n2", "userpass", "m", "h"⟩

/-- A concrete store holding two groups with one alias each. -/
def exStore3 : IdentityStore := ⟨[exGroup, ⟨"h", [exAliasB]⟩], exMounts, 3⟩

/-- The empty initial store over the concrete mount table. -/
def exEmpty : IdentityStore := initStore exMounts

/-- C9: the read path fails with the error "empty group alias id" when the
id argument is empty, and returns the nil not-found response, distinct
from that error, for a non-empty id that denotes no alias. -/
theorem claim_C9 (s : IdentityStore) (d : Fields) :
    (d.id.getD "" = "" →
      pathGroupAliasIDRead s d = (LResponse.errorResponse "empty group alias id", s))
    ∧ (∀ x, d.id = some x → x ≠ "" → memDBGroupAliasByID s x = none →
      pathGroupAliasIDRead s d = (LResponse.noneResponse, s))
    ∧ LResponse.errorResponse "empty group alias id" ≠ LResponse.noneResponse := by
  refine ⟨?_, ?_, by simp⟩
  · intro h
    rw [pathGroupAliasIDRead, if_pos h]
  · intro x h hx hal
    have hgd : d.id.getD "" = x := by rw [h]; rfl
    rw [pathGroupAliasIDRead, hgd, if_neg hx, hal]
    rfl

/-- Witness for C9 at concrete inputs. -/
theorem claim_C9_witness :
    pathGroupAliasIDRead exEmpty { id := some "" }
      = (LResponse.errorResponse "empty group alias id", exEmpty)
    ∧ pathGroupAliasIDRead exEmpty { id := some "zz" }
      = (LResponse.noneResponse, exEmpty) :=
  ⟨(claim_C9 exEmpty { id := some "" }).1 (by decide),
    (claim_C9 exEmpty { id := some "zz" }).2.1 "zz" rfl (by decide) (by decide)⟩

/-- C10: the delete path with an empty or absent id argument returns the
user error "missing group alias ID" with the store untouched; that error is
not the nil success response, so idempotent delete success applies only to
non-empty ids. -/
theorem claim_C10 (s : IdentityStore) (d : Fields)
    (h : d.id = none ∨ d.id = some "") :
    pathAliasIDDelete s d = (LResponse.errorResponse "missing group alias ID", s)
    ∧ LResponse.errorResponse "missing group alias ID" ≠ LResponse.noneResponse := by
  have hgd : d.id.getD "" = "" := by rcases h with h | h <;> rw [h] <;> rfl
  exact ⟨by rw [pathAliasIDDelete, if_pos hgd], by simp⟩

/-- Witness for C10 at a concrete input. -/
theorem claim_C10_witness :
    pathAliasIDDelete exEmpty { id := some "" }
      = (LResponse.errorResponse "missing group alias ID", exEmpty)
    ∧ LResponse.errorResponse "missing group alias ID" ≠ LResponse.noneResponse :=
  claim_C10 exEmpty { id := some "" } (Or.inr rfl)

/-- C4, on the modelled lookup (the source line passes the undefined
identifier groupID): the update entry point with a non-empty id that
denotes no alias fails with "invalid group alias ID" and leaves the store
untouched, and with an id denoting an alias it hands exactly that alias to
the common update handler. -/
theorem claim_C4 (s : IdentityStore) (d : Fields) (x : String)
    (h : d.id = some x) (hx : x ≠ "") :
    (memDBGroupAliasByID s x = none →
      pathGroupAliasIDUpdate s d
        = (LResponse.errorResponse "invalid group alias ID", s))
    ∧ (∀ ga, memDBGroupAliasByID s x = some ga →
      pathGroupAliasIDUpdate s d = handleGroupAliasUpdateCommon s d (some ga)) := by
  have hgd : d.id.getD "" = x := by rw [h]; rfl
  constructor
  · intro hal
    rw [pathGroupAliasIDUpdate, hgd, if_neg hx, hal]
  · intro ga hal
    exact update_to_handle h hx hal

/-- Witness for C4 at concrete inputs. -/
theorem claim_C4_witness :
    pathGroupAliasIDUpdate exStore { id := some "zz" }
      = (LResponse.errorResponse "invalid group alias ID", exStore)
    ∧ pathGroupAliasIDUpdate exStore
        { id := some "a", name := some "n1", mount_accessor := some "m" }
      = handleGroupAliasUpdateCommon exStore
          { id := some "a", name := some "n1", mount_accessor := some "m" }
          (some exAlias) :=
  ⟨(claim_C4 exStore { id := some "zz" } "zz" rfl (by decide)).1 (by decide),
    (claim_C4 exStore { id := some "a", name := some "n1", mount_accessor := some "m" }
      "a" rfl (by decide)).2 exAlias (by decide)⟩

/-- C3 as amended: a register request with the id field absent takes the
create path; one with the id field supplied but empty fails with
"empty group alias ID"; only one with a supplied non-empty id takes the
update path. -/
theorem claim_C3 (s : IdentityStore) (d : Fields) :
    (d.id = none → pathGroupAliasRegister s d = handleGroupAliasUpdateCommon s d none)
    ∧ (d.id = some "" →
      pathGroupAliasRegister s d = (LResponse.errorResponse "empty group alias ID", s))
    ∧ (∀ x, d.id = some x → x ≠ "" →
      pathGroupAliasRegister s d = pathGroupAliasIDUpdate s d) := by
  refine ⟨fun h => register_to_handle_create h, ?_, fun x h hx => register_to_update h⟩
  intro h
  rw [register_to_update h, pathGroupAliasIDUpdate,
    show d.id.getD "" = "" from by rw [h]; rfl, if_pos rfl]

/-- Counterexample to C3 as stated: a request whose id field is supplied
but empty, with every other validation satisfiable, is not served by the
create path; it fails with "empty group alias ID" and no alias exists
afterwards. -/
theorem claim_C3_cex :
    pathGroupAliasRegister exEmpty
        { id := some "", name := some "n1", mount_accessor := some "m" }
      = (LResponse.errorResponse "empty group alias ID", exEmpty)
    ∧ groupAliases (pathGroupAliasRegister exEmpty
        { id := some "", name := some "n1", mount_accessor := some "m" }).2 = [] :=
  ⟨by decide, by decide⟩

/-- A concrete create request. -/
def exReqCreate : Fields := { name := some "n1", mount_accessor := some "m" }

/-- A concrete update request naming the alias a. -/
def exReqUpdate : Fields :=
  { id := some "a", name := some "n1", mount_accessor := some "m" }

/-- Witness for C3 at concrete inputs. -/
theorem claim_C3_witness :
    pathGroupAliasRegister exEmpty exReqCreate
      = handleGroupAliasUpdateCommon exEmpty exReqCreate none
    ∧ pathGroupAliasRegister exStore exReqUpdate
      = pathGroupAliasIDUpdate exStore exReqUpdate :=
  ⟨(claim_C3 exEmpty exReqCreate).1 rfl,
    (claim_C3 exStore exReqUpdate).2.2 "a" rfl (by decide)⟩

/-- C6 as amended: validation order is group_id, then name, then mount
accessor.  A create request with a non-empty unresolvable group_id fails
with "invalid group ID" whatever the name; with the group_id check passing
and an empty name it fails with "missing alias name". -/
theorem claim_C6 (s : IdentityStore) (d : Fields) (h : d.id = none) :
    (d.group_id.getD "" ≠ "" → memDBGroupByID s (d.group_id.getD "") = none →
      pathGroupAliasRegister s d = (LResponse.errorResponse "invalid group ID", s))
    ∧ ((d.group_id.getD "" = "" ∨
        ∃ g, memDBGroupByID s (d.group_id.getD "") = some g) →
      d.name.getD "" = "" →
      pathGroupAliasRegister s d
        = (LResponse.errorResponse "missing alias name", s)) := by
  constructor
  · intro h0 hgl
    rw [register_to_handle_create h, handle_groupField_invalid h0 hgl]
  · intro hg hnm
    rw [register_to_handle_create h]
    by_cases h0 : d.group_id.getD "" = ""
    · rw [handle_groupField_empty h0]
      simp only [handleGroupAliasStage2, if_pos hnm]
    · rcases hg with hg | ⟨g, hg⟩
      · exact absurd hg h0
      · rw [handle_groupField_some h0 hg]
        simp only [handleGroupAliasStage2, if_pos hnm]

/-- Counterexample to C6 as stated: a register request with an empty name
and a non-empty unresolvable group_id returns "invalid group ID", not
"missing alias name". -/
theorem claim_C6_cex :
    pathGroupAliasRegister exEmpty
        { name := some "", mount_accessor := some "m", group_id := some "nope" }
      = (LResponse.errorResponse "invalid group ID", exEmpty)
    ∧ LResponse.errorResponse "invalid group ID"
        ≠ LResponse.errorResponse "missing alias name" :=
  ⟨by decide, by decide⟩

/-- A concrete request with an empty name and an unresolvable group id. -/
def exReqBadGroup : Fields :=
  { name := some "", mount_accessor := some "m", group_id := some "nope" }

/-- A concrete request with an empty name and a resolvable group id. -/
def exReqEmptyName : Fields :=
  { name := some "", mount_accessor := some "m", group_id := some "g" }

/-- Witness for C6 at concrete inputs. -/
theorem claim_C6_witness :
    pathGroupAliasRegister exEmpty exReqBadGroup
      = (LResponse.errorResponse "invalid group ID", exEmpty)
    ∧ pathGroupAliasRegister exStore exReqEmptyName
      = (LResponse.errorResponse "missing alias name", exStore) :=
  ⟨(claim_C6 exEmpty exReqBadGroup rfl).1 (by decide) (by decide),
    (claim_C6 exStore exReqEmptyName rfl).2 (Or.inr ⟨exGroup, by decide⟩) (by decide)⟩

/-- C7 as amended: for non-empty ids, deleting an id that denotes no alias
is a no-op success, and deleting the same id twice succeeds both times with
the state after the second delete identical to the state after the first. -/
theorem claim_C7 :
    (∀ (s : IdentityStore) (d : Fields) (x : String), d.id = some x → x ≠ "" →
      memDBGroupAliasByID s x = none →
      pathAliasIDDelete s d = (LResponse.noneResponse, s))
    ∧ (∀ (s : IdentityStore) (d : Fields) (x : String), StoreInv s →
      d.id = some x → x ≠ "" →
      (pathAliasIDDelete s d).1 = LResponse.noneResponse
      ∧ pathAliasIDDelete (pathAliasIDDelete s d).2 d
          = (LResponse.noneResponse, (pathAliasIDDelete s d).2)) := by
  constructor
  · intro s d x h hx hal
    exact delete_notfound h hx hal
  · intro s d x hs h hx
    have hgd : d.id.getD "" = x := by rw [h]; rfl
    have hresp : pathAliasIDDelete s d
        = (LResponse.noneResponse, deleteGroupAlias s x) := by
      rw [pathAliasIDDelete, hgd, if_neg hx]
    constructor
    · rw [hresp]
    · rw [hresp]
      exact delete_notfound h hx (delete_removes hs x)

/-- Counterexample to C7 as stated: the empty id denotes no alias, yet
deleting it is not a no-op success but the user error
"missing group alias ID". -/
theorem claim_C7_cex :
    memDBGroupAliasByID exEmpty "" = none
    ∧ pathAliasIDDelete exEmpty { id := some "" }
        = (LResponse.errorResponse "missing group alias ID", exEmpty)
    ∧ LResponse.errorResponse "missing group alias ID" ≠ LResponse.noneResponse :=
  ⟨by decide, by decide, by decide⟩

/-- Witness for C7 at concrete inputs. -/
theorem claim_C7_witness :
    pathAliasIDDelete exEmpty { id := some "zz" } = (LResponse.noneResponse, exEmpty)
    ∧ ((pathAliasIDDelete exStore { id := some "a" }).1 = LResponse.noneResponse
      ∧ pathAliasIDDelete (pathAliasIDDelete exStore { id := some "a" }).2
          { id := some "a" }
        = (LResponse.noneResponse, (pathAliasIDDelete exStore { id := some "a" }).2)) :=
  ⟨claim_C7.1 exEmpty { id := some "zz" } "zz" rfl (by decide) (by decide),
    claim_C7.2 exStore { id := some "a" } "a"
      ⟨by decide, by decide, by decide, by decide⟩ rfl (by decide)⟩

/-- C2 as amended: on the create path into an existing target group, the
new Alias becomes the group's whole alias set; the response carries the
fresh alias id and the group id. -/
theorem claim_C2 (s : IdentityStore) (d : Fields) (g : Group)
    (mvr : MountValidationResp) (hs : StoreInv s) (hid : d.id = none)
    (h0 : d.group_id.getD "" ≠ "")
    (hgl : memDBGroupByID s (d.group_id.getD "") = some g)
    (hnm : d.name.getD "" ≠ "") (hma : d.mount_accessor.getD "" ≠ "")
    (hval : validateMountAccessorFunc s (d.mount_accessor.getD "") = some mvr)
    (hfac : memDBGroupAliasByFactors s mvr.mountAccessor (d.name.getD "") = none) :
    (pathGroupAliasRegister s d).1
      = LResponse.success [("id", freshId s.nextId), ("group_id", g.id)] []
    ∧ memDBGroupByID (pathGroupAliasRegister s d).2 g.id
        = some ⟨g.id, [⟨freshId s.nextId, d.name.getD "", mvr.mountType,
            mvr.mountAccessor, g.id⟩]⟩ := by
  obtain ⟨s', heq, hseq, hinv, hfind, hfindg⟩ :=
    spec_create_existing s mvr (d.name.getD "") [] g hs (memDBGroupByID_some hgl).1 hfac
  have hred : pathGroupAliasRegister s d
      = commitGroupAlias s ⟨"", "", "", "", ""⟩ mvr (d.name.getD "")
          { g with Alias := [⟨"", "", "", "", ""⟩] } none [] := by
    rw [register_to_handle_create hid, handle_groupField_some h0 hgl,
      stage2_to_core hnm hma hval]
    simp [handleGroupAliasCore, hfac]
  rw [hred, heq]
  exact ⟨rfl, hfindg⟩

/-- Counterexample to C2 as stated: group g holds the alias a before the
create; after a successful create of a second alias into g, the group's
alias set is exactly the new alias and a is gone. -/
theorem claim_C2_cex :
    exAlias ∈ exGroup.Alias
    ∧ (pathGroupAliasRegister exStore
        { name := some "n2", mount_accessor := some "m", group_id := some "g" }).1
      = LResponse.success [("id", freshId 3), ("group_id", "g")] []
    ∧ memDBGroupByID (pathGroupAliasRegister exStore
        { name := some "n2", mount_accessor := some "m", group_id := some "g" }).2 "g"
      = some ⟨"g", [⟨freshId 3, "n2", "userpass", "m", "g"⟩]⟩
    ∧ exAlias ∉ (⟨"g", [⟨freshId 3, "n2", "userpass", "m", "g"⟩]⟩ : Group).Alias :=
  ⟨by decide, by decide, by decide, by decide⟩

/-- A concrete create request targeting the existing group g. -/
def exReqIntoG : Fields :=
  { name := some "n2", mount_accessor := some "m", group_id := some "g" }

/-- Witness for C2 at concrete inputs. -/
theorem claim_C2_witness :
    (pathGroupAliasRegister exStore exReqIntoG).1
      = LResponse.success [("id", freshId exStore.nextId), ("group_id", exGroup.id)] []
    ∧ memDBGroupByID (pathGroupAliasRegister exStore exReqIntoG).2 exGroup.id
        = some ⟨exGroup.id, [⟨freshId exStore.nextId, exReqIntoG.name.getD "",
            MountValidationResp.mountType ⟨"m", "userpass"⟩,
            MountValidationResp.mountAccessor ⟨"m", "userpass"⟩, exGroup.id⟩]⟩ :=
  claim_C2 exStore exReqIntoG exGroup ⟨"m", "userpass"⟩
    ⟨by decide, by decide, by decide, by decide⟩ rfl (by decide) (by decide)
    (by decide) (by decide) (by decide) (by decide)

/-- C5: on the update path, a group_id naming a different group than the
alias's current owner transfers the alias: after success the old group's
alias set no longer contains the alias, the target group's set has it
appended, both groups' new state is committed, and the successful response
carries the non-fatal transfer warning. -/
theorem claim_C5 (s : IdentityStore) (d : Fields) (x : String) (ga : GroupAlias)
    (eg g : Group) (mvr : MountValidationResp) (hs : StoreInv s)
    (hid : d.id = some x) (hx : x ≠ "")
    (hal : memDBGroupAliasByID s x = some ga)
    (h0 : d.group_id.getD "" ≠ "")
    (hgl : memDBGroupByID s (d.group_id.getD "") = some g)
    (hnm : d.name.getD "" ≠ "") (hma : d.mount_accessor.getD "" ≠ "")
    (hval : validateMountAccessorFunc s (d.mount_accessor.getD "") = some mvr)
    (hcnf : ∀ f, memDBGroupAliasByFactors s mvr.mountAccessor (d.name.getD "")
      = some f → f.id = ga.id)
    (hbyal : memDBGroupByAliasID s ga.id = some eg)
    (hne : g.id ≠ eg.id) :
    (pathGroupAliasRegister s d).1
      = LResponse.success [("id", ga.id), ("group_id", g.id)]
          ["group alias is being transferred from group \"" ++ eg.id
            ++ "\" to \"" ++ g.id ++ "\""]
    ∧ memDBGroupByID (pathGroupAliasRegister s d).2 eg.id
        = some (deleteAliasFromGroup eg ga)
    ∧ (∀ a ∈ (deleteAliasFromGroup eg ga).Alias, a.id ≠ ga.id)
    ∧ memDBGroupByID (pathGroupAliasRegister s d).2 g.id
        = some ⟨g.id, g.Alias ++ [⟨ga.id, d.name.getD "", mvr.mountType,
            mvr.mountAccessor, g.id⟩]⟩ := by
  obtain ⟨s', heq, hinv, hfind, hfeg, hdel, hfg⟩ :=
    spec_transfer s mvr (d.name.getD "")
      ["group alias is being transferred from group \"" ++ eg.id
        ++ "\" to \"" ++ g.id ++ "\""]
      ga eg g hs (memDBGroupAliasByID_some hal).1 hbyal
      (memDBGroupByID_some hgl).1 hne hcnf
  have hcf : (match memDBGroupAliasByFactors s mvr.mountAccessor (d.name.getD "") with
      | some f => f.id != ga.id
      | none => false) = false := by
    cases hfc : memDBGroupAliasByFactors s mvr.mountAccessor (d.name.getD "") with
    | none => rfl
    | some f => simpa using hcnf f hfc
  have hred : pathGroupAliasRegister s d
      = commitGroupAlias s ga mvr (d.name.getD "")
          { g with Alias := g.Alias ++ [ga] }
          (some (deleteAliasFromGroup eg ga))
          ["group alias is being transferred from group \"" ++ eg.id
            ++ "\" to \"" ++ g.id ++ "\""] := by
    rw [register_to_update hid, update_to_handle hid hx hal,
      handle_groupField_some h0 hgl, stage2_to_core hnm hma hval]
    simp only [handleGroupAliasCore, hcf, Bool.false_eq_true, if_false, hbyal,
      if_pos hne]
  rw [hred, heq]
  exact ⟨rfl, hfeg, hdel, hfg⟩

/-- A concrete update request transferring the alias a to group h. -/
def exReqTransfer : Fields :=
  { id := some "a", name := some "n1", mount_accessor := some "m",
    group_id := some "h" }

/-- Witness for C5 at concrete inputs. -/
theorem claim_C5_witness :
    (pathGroupAliasRegister exStore2 exReqTransfer).1
      = LResponse.success [("id", GroupAlias.id exAlias), ("group_id", "h")]
          ["group alias is being transferred from group \"" ++ Group.id exGroup
            ++ "\" to \"" ++ "h" ++ "\""]
    ∧ memDBGroupByID (pathGroupAliasRegister exStore2 exReqTransfer).2
          (Group.id exGroup)
        = some (deleteAliasFromGroup exGroup exAlias)
    ∧ memDBGroupByID (pathGroupAliasRegister exStore2 exReqTransfer).2 "h"
        = some ⟨"h", Group.Alias ⟨"h", []⟩ ++ [⟨GroupAlias.id exAlias,
            exReqTransfer.name.getD "",
            MountValidationResp.mountType ⟨"m", "userpass"⟩,
            MountValidationResp.mountAccessor ⟨"m", "userpass"⟩, "h"⟩]⟩ := by
  have h := claim_C5 exStore2 exReqTransfer "a" exAlias exGroup ⟨"h", []⟩
    ⟨"m", "userpass"⟩ ⟨by decide, by decide, by decide, by decide⟩ rfl (by decide)
    (by decide) (by decide) (by decide) (by decide) (by decide) (by decide)
    (by
      intro f hf
      have he : memDBGroupAliasByFactors exStore2
          (MountValidationResp.mountAccessor ⟨"m", "userpass"⟩)
          (exReqTransfer.name.getD "") = some exAlias := by decide
      rw [he] at hf
      have h2 : f = exAlias := by injection hf.symm
      rw [h2])
    (by decide) (by decide)
  exact ⟨h.1, h.2.1, h.2.2.2⟩

/-- C8: a successful register returns an alias id under which an immediate
read returns a view carrying exactly the name supplied at registration and
the resolved mount accessor. -/
theorem claim_C8 (s : IdentityStore) (d : Fields) (dat : List (String × String))
    (w : List String) (s' : IdentityStore) (hs : StoreInv s)
    (h : pathGroupAliasRegister s d = (LResponse.success dat w, s')) :
    ∃ aid gid mvr,
      dat = [("id", aid), ("group_id", gid)]
      ∧ validateMountAccessorFunc s (d.mount_accessor.getD "") = some mvr
      ∧ pathGroupAliasIDRead s' { id := some aid }
        = (LResponse.success [("id", aid), ("name", d.name.getD ""),
            ("mount_accessor", mvr.mountAccessor), ("mount_type", mvr.mountType),
            ("group_id", gid)] [], s') := by
  have hspec := register_spec s d hs
  have h1 : (pathGroupAliasRegister s d).1 = LResponse.success dat w := by rw [h]
  have h2 : (pathGroupAliasRegister s d).2 = s' := by rw [h]
  obtain ⟨aid, gid, mvr, hdat, hval, haid, hfind⟩ := hspec.2 dat w h1
  refine ⟨aid, gid, mvr, hdat, hval, ?_⟩
  rw [h2] at hfind
  rw [pathGroupAliasIDRead,
    show ({ id := some aid } : Fields).id.getD "" = aid from rfl,
    if_neg haid, hfind]
  rfl

/-- A concrete create request used by the round-trip witness. -/
def exReqRt : Fields := { name := some "n2", mount_accessor := some "m" }

/-- Witness for C8 at concrete inputs. -/
theorem claim_C8_witness :
    pathGroupAliasIDRead (pathGroupAliasRegister exStore exReqRt).2
        { id := some (freshId 4) }
      = (LResponse.success [("id", freshId 4), ("name", "n2"),
          ("mount_accessor", "m"), ("mount_type", "userpass"),
          ("group_id", freshId 3)] [],
        (pathGroupAliasRegister exStore exReqRt).2) := by
  obtain ⟨aid, gid, mvr, hdat, hval, hread⟩ :=
    claim_C8 exStore exReqRt [("id", freshId 4), ("group_id", freshId 3)] []
      (pathGroupAliasRegister exStore exReqRt).2
      ⟨by decide, by decide, by decide, by decide⟩
      (by decide)
  have hda : aid = freshId 4 ∧ gid = freshId 3 := by
    have h5 := hdat
    simp only [List.cons.injEq, Prod.mk.injEq, List.nil_eq, and_true, true_and] at h5
    exact ⟨h5.1.symm, h5.2.symm⟩
  have hmv : mvr = ⟨"m", "userpass"⟩ := by
    have h6 : validateMountAccessorFunc exStore (exReqRt.mount_accessor.getD "")
        = some ⟨"m", "userpass"⟩ := by decide
    rw [h6] at hval
    injection hval.symm
  rw [hda.1, hda.2, hmv] at hread
  exact hread

/-- C1: along every sequence of register operations from the initial store,
no two live aliases ever share the (mount_accessor, name) pair; a create
request whose resolved factors match an existing alias, and an update
request whose resolved factors match an alias with a different id, both
fail with the uniqueness error and leave the store unchanged. -/
theorem claim_C1 :
    (∀ (mounts : List (String × MountValidationResp)) (ops : List Fields),
      (groupAliases (runRegisters mounts ops)).Pairwise
        (fun a b => a.mountAccessor ≠ b.mountAccessor ∨ a.name ≠ b.name))
    ∧ (∀ (s : IdentityStore) (d : Fields) (mvr : MountValidationResp)
        (f : GroupAlias), d.id = none →
      (d.group_id.getD "" = "" ∨
        ∃ g, memDBGroupByID s (d.group_id.getD "") = some g) →
      d.name.getD "" ≠ "" → d.mount_accessor.getD "" ≠ "" →
      validateMountAccessorFunc s (d.mount_accessor.getD "") = some mvr →
      memDBGroupAliasByFactors s mvr.mountAccessor (d.name.getD "") = some f →
      pathGroupAliasRegister s d
        = (LResponse.errorResponse
            "combination of mount and group alias name is already in use", s))
    ∧ (∀ (s : IdentityStore) (d : Fields) (x : String) (ga : GroupAlias)
        (mvr : MountValidationResp) (f : GroupAlias),
      d.id = some x → x ≠ "" →
      memDBGroupAliasByID s x = some ga →
      (d.group_id.getD "" = "" ∨
        ∃ g, memDBGroupByID s (d.group_id.getD "") = some g) →
      d.name.getD "" ≠ "" → d.mount_accessor.getD "" ≠ "" →
      validateMountAccessorFunc s (d.mount_accessor.getD "") = some mvr →
      memDBGroupAliasByFactors s mvr.mountAccessor (d.name.getD "") = some f →
      f.id ≠ ga.id →
      pathGroupAliasRegister s d
        = (LResponse.errorResponse
            "combination of mount and group alias name is already in use", s)) := by
  refine ⟨?_, ?_, ?_⟩
  · intro mounts ops
    have hinv := StoreInv_runRegisters mounts ops
    have h1 := hinv.fNodup
    rw [aliasFactors] at h1
    have h2 : (aliasesOf (runRegisters mounts ops).groups).Pairwise
        (fun a b => (a.mountAccessor, a.name) ≠ (b.mountAccessor, b.name)) :=
      List.pairwise_map.mp h1
    refine h2.imp ?_
    intro a b hab
    by_cases hma : a.mountAccessor = b.mountAccessor
    · right
      intro hnm
      exact hab (by rw [hma, hnm])
    · left
      exact hma
  · intro s d mvr f h1 h2 h3 h4 h5 h6
    exact register_create_conflict s d mvr f h1 h2 h3 h4 h5 h6
  · intro s d x ga mvr f h1 h2 h3 h4 h5 h6 h7 h8 h9
    exact register_update_conflict s d x ga mvr f h1 h2 h3 h4 h5 h6 h7 h8 h9

/-- A concrete create request colliding with the live alias a. -/
def exReqCollide : Fields := { name := some "n1", mount_accessor := some "m" }

/-- A concrete update request renaming the alias b onto the factors of a. -/
def exReqRename : Fields :=
  { id := some "b", name := some "n1", mount_accessor := some "m" }

/-- Witness for C1 at concrete inputs. -/
theorem claim_C1_witness :
    (groupAliases (runRegisters exMounts [exReqCollide])).Pairwise
      (fun a b => a.mountAccessor ≠ b.mountAccessor ∨ a.name ≠ b.name)
    ∧ pathGroupAliasRegister exStore exReqCollide
      = (LResponse.errorResponse
          "combination of mount and group alias name is already in use", exStore)
    ∧ pathGroupAliasRegister exStore3 exReqRename
      = (LResponse.errorResponse
          "combination of mount and group alias name is already in use", exStore3) :=
  ⟨claim_C1.1 exMounts [exReqCollide],
    claim_C1.2.1 exStore exReqCollide ⟨"m", "userpass"⟩ exAlias rfl (Or.inl rfl)
      (by decide) (by decide) (by decide) (by decide),
    claim_C1.2.2 exStore3 exReqRename "b" exAliasB ⟨"m", "userpass"⟩ exAlias rfl
      (by decide) (by decide) (Or.inl rfl) (by decide) (by decide) (by decide)
      (by decide) (by decide)⟩
